import Mathlib

/-!
Verification development for the annotation-scanning / schema-matching /
code-generation pipeline of `src/main.go` (primary variant, lines 1-426).

Go data is embedded as follows: Go maps (`map[string]T`) become association
lists `List (String × T)`; the order of such a list stands for the (arbitrary)
iteration order the Go runtime would present.  Go slices become `List`.
Arbitrary JSON attribute values (`interface{}`) are modelled by the `String`
that Go's `%v` formatting would render for them, since the pipeline only ever
compares addresses/names and renders values with `%v`.  `log.Fatalf` and
runtime panics, which terminate the whole process, are modelled by
`Except.error`.  Logging-only side effects (`log.Printf`, the coloured
`fmt.Printf` progress messages, and the `getResourceState` call whose result
is only logged) are omitted, matching spec section 1's exclusion of
logging/formatting from the core.
-/

namespace TDI

/-! ### Character and string helpers

Executable, kernel-reducible models of the Go string primitives the source
uses: `strings.Split`, `strings.HasPrefix`, `strings.Contains`,
`strings.TrimSpace`, and byte-wise lexicographic comparison.
-/

/-- Model of Go `strings.Split(s, sep)` for a one-character separator,
on the underlying character list.  Always returns at least one piece. -/
def splitOnChar (c : Char) : List Char → List (List Char)
  | [] => [[]]
  | a :: rest =>
    let r := splitOnChar c rest
    if a == c then [] :: r
    else
      match r with
      | [] => [[a]]
      | h :: t => (a :: h) :: t

/-- `strings.Split(s, ".")`. -/
def splitDots (s : String) : List String :=
  (splitOnChar '.' s.data).map (fun cs => ⟨cs⟩)

/-- `strings.Split(s, "/")`. -/
def splitSlash (s : String) : List String :=
  (splitOnChar '/' s.data).map (fun cs => ⟨cs⟩)

/-- Rejoin the pieces of a split with the separator. -/
def joinSep (c : Char) : List (List Char) → List Char
  | [] => []
  | [p] => p
  | p :: ps => p ++ c :: joinSep c ps

/-- `strings.HasPrefix(text, pat)` on character lists (`pat` first). -/
def startsWithChars : List Char → List Char → Bool
  | [], _ => true
  | _ :: _, [] => false
  | p :: ps, c :: cs => p == c && startsWithChars ps cs

/-- `strings.Contains(text, pat)` on character lists (`pat` first). -/
def containsChars (pat : List Char) : List Char → Bool
  | [] => startsWithChars pat []
  | c :: cs => startsWithChars pat (c :: cs) || containsChars pat cs

/-- ASCII whitespace, the subset of Unicode whitespace relevant to the
source's `.tf` inputs; used to model `strings.TrimSpace` and regex `\s`. -/
def isGoSpace (c : Char) : Bool :=
  c == ' ' || c == '\t' || c == '\n' || c == '\x0b' || c == '\x0c' || c == '\r'

/-- `strings.TrimSpace` on a character list. -/
def trimChars (cs : List Char) : List Char :=
  ((cs.dropWhile isGoSpace).reverse.dropWhile isGoSpace).reverse

/-- Regex `\w`: ASCII word character. -/
def isWordChar (c : Char) : Bool :=
  c.isAlphanum || c == '_'

/-- Association-list lookup, the model of Go map indexing `m[k]`. -/
def lookupKey (k : String) (m : List (String × α)) : Option α :=
  match m.find? (fun p => p.1 == k) with
  | some p => some p.2
  | none => none

/-- The keys of an association list, in iteration order. -/
def keysOf (m : List (String × α)) : List String :=
  m.map Prod.fst

/-- Model of the Go membership test `_, exists := m[k]`. -/
def containsKey (k : String) (m : List (String × α)) : Bool :=
  (m.find? (fun p => p.1 == k)).isSome

/-! ### Data model (struct definitions of src/main.go lines 19-71) -/

/-- `Attribute` (src/main.go:57).  The `Type interface{}` field is modelled
by the string form of the JSON value; only `required` is ever read. -/
structure Attribute where
  type : String
  description : String
  optional : Bool
  computed : Bool
  required : Bool
deriving DecidableEq, Repr

/-- `ResourceBlock` (src/main.go:53). -/
structure ResourceBlock where
  attributes : List (String × Attribute)
deriving DecidableEq, Repr

/-- `ResourceSchema` (src/main.go:49). -/
structure ResourceSchema where
  block : ResourceBlock
deriving DecidableEq, Repr

/-- `ProviderSchemaDetails` (src/main.go:44). -/
structure ProviderSchemaDetails where
  resourceSchemas : List (String × ResourceSchema)
  dataSourceSchemas : List (String × ResourceSchema)
deriving DecidableEq, Repr

/-- `ProviderSchema` (src/main.go:40): provider source identifier →
schema details. -/
structure ProviderSchema where
  providerSchemas : List (String × ProviderSchemaDetails)
deriving DecidableEq, Repr

/-- One entry of the state snapshot's resource list (src/main.go:29-32);
values are modelled by their `%v` rendering. -/
structure StateResource where
  address : String
  values : List (String × String)
deriving DecidableEq, Repr

/-- `TerraformState` (src/main.go:26), reduced to the resource list the
core reads. -/
structure TerraformState where
  resources : List StateResource
deriving DecidableEq, Repr

/-- `AnnotatedOutput` (src/main.go:65). -/
structure AnnotatedOutput where
  file : String
  line : Nat
  output : String
  reference : String
  provider : String
deriving DecidableEq, Repr

/-- The resource type a declaration's reference resolves to: the first
dotted component (`parts[0]`). -/
def refType (o : AnnotatedOutput) : String :=
  (splitDots o.reference).getD 0 ""

/-- The resource instance name: the second dotted component (`parts[1]`). -/
def refName (o : AnnotatedOutput) : String :=
  (splitDots o.reference).getD 1 ""

/-- The two process-terminating events of the generation phase:
`log.Fatalf("Invalid reference format: %s", ref)` and the
index-out-of-range panic of `strings.Split(src, "/")[2]`. -/
inductive GenErr where
  | invalidRef (ref : String)
  | indexOutOfRange
deriving DecidableEq, Repr

instance {ε α : Type _} [DecidableEq ε] [DecidableEq α] : DecidableEq (Except ε α) := fun a b =>
  match a, b with
  | .error e1, .error e2 =>
    if h : e1 = e2 then .isTrue (congrArg Except.error h)
    else .isFalse (fun hc => h (by injection hc))
  | .ok v1, .ok v2 =>
    if h : v1 = v2 then .isTrue (congrArg Except.ok h)
    else .isFalse (fun hc => h (by injection hc))
  | .error _, .ok _ => .isFalse (fun hc => Except.noConfusion hc)
  | .ok _, .error _ => .isFalse (fun hc => Except.noConfusion hc)

/-! ### Concrete sample inputs used by the closed instantiations below -/

/-- A one-attribute data-source schema requiring `id`. -/
def dsSampleId : ResourceSchema := ⟨⟨[("id", ⟨"string", "", false, false, true⟩)]⟩⟩

/-- The spec section 8 example schema: provider `hashicorp/aws` (full
registry source) with resource and data source `aws_instance`, the data
source requiring `id`. -/
def scSampleAws : ProviderSchema :=
  ⟨[("registry.terraform.io/hashicorp/aws",
    ⟨[("aws_instance", ⟨⟨[]⟩⟩)], [("aws_instance", dsSampleId)]⟩)]⟩

/-- The spec section 8 example state: `aws_instance.foo` with `id = i-123`. -/
def stSampleAws : TerraformState := ⟨[⟨"aws_instance.foo", [("id", "i-123")]⟩]⟩

/-- The spec section 8 example declaration. -/
def outsSampleAws : List AnnotatedOutput := [⟨"main.tf", 2, "x", "aws_instance.foo.id", ""⟩]

/-- A small schema owning resource and data source type `t`. -/
def scSampleT : ProviderSchema := ⟨[("h/a/p", ⟨[("t", ⟨⟨[]⟩⟩)], [("t", dsSampleId)]⟩)]⟩

/-- Two declarations resolving to the same address `t.n`. -/
def outsSampleDup : List AnnotatedOutput :=
  [⟨"a.tf", 2, "x", "t.n.id", ""⟩, ⟨"a.tf", 8, "y", "t.n.arn", ""⟩]

/-- A schema whose provider source identifier has only two `/`-separated
segments, as in the spec's own `hashicorp/aws` examples. -/
def scSampleShortSource : ProviderSchema :=
  ⟨[("hashicorp/aws", ⟨[("aws_instance", ⟨⟨[]⟩⟩)], [("aws_instance", dsSampleId)]⟩)]⟩

/-- A schema whose provider source identifier has four `/`-separated
segments, so its final segment differs from the segment at index 2. -/
def scSampleLongSource : ProviderSchema :=
  ⟨[("a/b/c/d", ⟨[("t", ⟨⟨[]⟩⟩)], [("t", dsSampleId)]⟩)]⟩

/-- Two providers both defining data source type `t` (the matcher
tie-break case), with every mapping listed in one iteration order. -/
def scPermFirst : ProviderSchema :=
  ⟨[("h/x/alpha", ⟨[("t", ⟨⟨[]⟩⟩)],
      [("t", ⟨⟨[("id", ⟨"string", "", false, false, true⟩),
                ("name", ⟨"string", "", true, false, false⟩)]⟩⟩)]⟩),
    ("h/x/beta", ⟨[],
      [("t", ⟨⟨[("arn", ⟨"string", "", false, false, true⟩)]⟩⟩)]⟩)]⟩

/-- The same snapshot content as `scPermFirst`, with the provider mapping
and the attribute mappings presented in a different iteration order. -/
def scPermSecond : ProviderSchema :=
  ⟨[("h/x/beta", ⟨[],
      [("t", ⟨⟨[("arn", ⟨"string", "", false, false, true⟩)]⟩⟩)]⟩),
    ("h/x/alpha", ⟨[("t", ⟨⟨[]⟩⟩)],
      [("t", ⟨⟨[("name", ⟨"string", "", true, false, false⟩),
                ("id", ⟨"string", "", false, false, true⟩)]⟩⟩)]⟩)]⟩

/-! ### Annotation Scanner (`findAnnotatedOutputs`, src/main.go:73-137)

The scanner is modelled per file, on the file's list of raw lines; the
directory walk, file filtering and line-number/file-path bookkeeping are
I/O mechanics outside the decision logic.  Each line is trimmed
(`strings.TrimSpace`) before inspection, exactly as in the source.
-/

/-- A trimmed line opens a comment (`strings.HasPrefix(line, "#") ||
strings.HasPrefix(line, "//")`). -/
def isCommentLine (cs : List Char) : Bool :=
  startsWithChars "#".data cs || startsWithChars "//".data cs

/-- The marker token of the primary variant. -/
def markerChars : List Char := "@public".data

/-- Attempt of the regex `output\s+"(\w+)"` anchored at the current
position: literal `output`, one or more whitespace characters, a double
quote, one or more word characters (the capture), a double quote. -/
def tryMatchName (cs : List Char) : Option String :=
  if startsWithChars "output".data cs then
    let rest := cs.drop 6
    if (rest.takeWhile isGoSpace).isEmpty then none
    else
      match rest.dropWhile isGoSpace with
      | '"' :: rest2 =>
        let w := rest2.takeWhile isWordChar
        if w.isEmpty then none
        else
          match rest2.dropWhile isWordChar with
          | '"' :: _ => some ⟨w⟩
          | _ => none
      | _ => none
  else none

/-- First match of `output\s+"(\w+)"` in the block text, scanning start
positions left to right as `FindStringSubmatch` does. -/
def findName : List Char → Option String
  | [] => none
  | c :: cs =>
    match tryMatchName (c :: cs) with
    | some n => some n
    | none => findName cs

/-- Attempt of the regex `value\s*=\s*(.+)` anchored at the current
position: literal `value`, optional whitespace, `=`, optional whitespace,
then a non-empty capture running to the end of the line.  (Backtracking of
`\s*` into the capture on all-whitespace tails is not modelled; the two
agree whenever a non-whitespace character follows the `=`.) -/
def tryMatchValue (cs : List Char) : Option String :=
  if startsWithChars "value".data cs then
    match (cs.drop 5).dropWhile isGoSpace with
    | '=' :: rest2 =>
      let cap := (rest2.dropWhile isGoSpace).takeWhile (fun c => c != '\n')
      if cap.isEmpty then none else some ⟨cap⟩
    | _ => none
  else none

/-- First match of `value\s*=\s*(.+)` in the block text. -/
def findValueRef : List Char → Option String
  | [] => none
  | c :: cs =>
    match tryMatchValue (c :: cs) with
    | some v => some v
    | none => findValueRef cs

/-- `extractOutputInfo` (src/main.go:139-153): the declaration name and the
reference expression, or `("", "")` when the name regex does not match. -/
def extractOutputInfo (block : String) : String × String :=
  match findName block.data with
  | some name => (name, (findValueRef block.data).getD "")
  | none => ("", "")

/-- Scanner state: `seeking` / `annotated` mirror the source's
`inAnnotation` flag; `capturing` models the inner block-capture loop with
the block text accumulated so far. -/
inductive ScanMode where
  | seeking
  | annotated
  | capturing (block : String)
deriving DecidableEq, Repr

/-- Close a captured block: emit the `(name, reference)` pair when the name
regex matched (src/main.go:116-124). -/
def closeBlock (block : String) : List (String × String) :=
  let (name, ref) := extractOutputInfo block
  if name = "" then [] else [(name, ref)]

/-- The per-file line loop of `findAnnotatedOutputs` (src/main.go:92-129),
over raw lines, threading the scanner state.  Comment lines are tested
first regardless of state; while `annotated`, a non-comment line that does
not start the declaration keyword leaves the state unchanged; the capture
loop appends every line verbatim until one starts with the closing brace,
and a block still open at end of file is parsed anyway. -/
def scanLinesAux : List String → ScanMode → List (String × String)
  | [], .capturing block => closeBlock block
  | [], _ => []
  | l :: rest, mode =>
    let line : List Char := trimChars l.data
    match mode with
    | .capturing block =>
      let block' := block ++ "\n" ++ (⟨line⟩ : String)
      if startsWithChars "\x7d".data line then
        closeBlock block' ++ scanLinesAux rest .seeking
      else
        scanLinesAux rest (.capturing block')
    | .seeking =>
      if isCommentLine line then
        if containsChars markerChars line then scanLinesAux rest .annotated
        else scanLinesAux rest .seeking
      else
        scanLinesAux rest .seeking
    | .annotated =>
      if isCommentLine line then
        scanLinesAux rest .annotated
      else if startsWithChars "output".data line then
        scanLinesAux rest (.capturing ⟨line⟩)
      else
        scanLinesAux rest .annotated

/-- Scan one file's lines for annotated declarations, producing the
`(output name, reference expression)` pairs in order. -/
def scanFile (lines : List String) : List (String × String) :=
  scanLinesAux lines .seeking

/-! ### Schema Matcher (`findMatchingDataResource`, src/main.go:191-209) -/

/-- The attribute names whose `Required` flag is set, in the iteration
order of the attribute mapping (src/main.go:199-204). -/
def requiredAttrNames (rs : ResourceSchema) : List String :=
  (rs.block.attributes.filter (fun p => p.2.required)).map Prod.fst

/-- The provider loop of `findMatchingDataResource` (src/main.go:197-207):
the first provider entry, in iteration order, whose `dataSourceSchemas`
contains `resourceType`, yielding that data-source schema. -/
def findDS (resourceType : String) : List (String × ProviderSchemaDetails) → Option ResourceSchema
  | [] => none
  | p :: rest =>
    match lookupKey resourceType p.2.dataSourceSchemas with
    | some ds => some ds
    | none => findDS resourceType rest

/-- `findMatchingDataResource` (src/main.go:191-209).  A reference with
fewer than two dotted components hits `log.Fatalf` (modelled as an error);
otherwise the first component is the resource type and the result is
whether a data source of that type exists, with its required attributes. -/
def findMatchingDataResource (reference : String) (schema : ProviderSchema) :
    Except GenErr (Bool × List String) :=
  let parts := splitDots reference
  if parts.length < 2 then .error (.invalidRef reference)
  else
    match findDS (parts.getD 0 "") schema.providerSchemas with
    | some ds => .ok (true, requiredAttrNames ds)
    | none => .ok (false, [])

/-! ### State Extractor (`extractAttributeValue`, src/main.go:211-220) -/

/-- The resource-list loop of `extractAttributeValue`: an entry whose
address matches but whose values lack the attribute does not stop the
search (the source `return` fires only when the value exists). -/
def extractAttributeValueAux (reference attr : String) : List StateResource → Option String
  | [] => none
  | r :: rest =>
    if r.address == reference then
      match lookupKey attr r.values with
      | some v => some v
      | none => extractAttributeValueAux reference attr rest
    else extractAttributeValueAux reference attr rest

/-- `extractAttributeValue` (src/main.go:211-220). -/
def extractAttributeValue (reference attr : String) (state : TerraformState) : Option String :=
  extractAttributeValueAux reference attr state.resources

/-! ### Code Generator: data file (`createTerraformFile`, src/main.go:245-296) -/

/-- One generated `data` block: resource type, resource name, and the
rendered attribute assignments in required-attribute order. -/
structure DataBlock where
  resourceType : String
  resourceName : String
  attrs : List (String × String)
deriving DecidableEq, Repr

/-- The output loop of `createTerraformFile` (src/main.go:254-293):
references are split on `.` and must have exactly three components
(`log.Fatalf` otherwise); resource addresses are deduplicated via
`seenResources` (recorded whether or not a data source matches); for a
matched address a block is built whose attributes are the state values of
the required attributes, defaulting to `""` when absent. -/
def dataBlocksAux (state : TerraformState) (schema : ProviderSchema) (seen : List String) :
    List AnnotatedOutput → Except GenErr (List DataBlock)
  | [] => .ok []
  | o :: rest =>
    let parts := splitDots o.reference
    if parts.length = 3 then
      let resourceType := parts.getD 0 ""
      let resourceName := parts.getD 1 ""
      let uniqueKey := resourceType ++ "." ++ resourceName
      if seen.contains uniqueKey then dataBlocksAux state schema seen rest
      else
        let resourceReference := resourceType ++ "." ++ resourceName
        match findMatchingDataResource resourceReference schema with
        | .error e => .error e
        | .ok (true, req) =>
          let b : DataBlock :=
            ⟨resourceType, resourceName,
              req.map (fun a => (a, (extractAttributeValue resourceReference a state).getD ""))⟩
          match dataBlocksAux state schema (uniqueKey :: seen) rest with
          | .error e => .error e
          | .ok bs => .ok (b :: bs)
        | .ok (false, _) => dataBlocksAux state schema (uniqueKey :: seen) rest
    else .error (.invalidRef o.reference)

/-- The sequence of data blocks `createTerraformFile` writes. -/
def dataBlocks (outs : List AnnotatedOutput) (state : TerraformState) (schema : ProviderSchema) :
    Except GenErr (List DataBlock) :=
  dataBlocksAux state schema [] outs

/-- One attribute line, the `Fprintf` format string
`"  %s = \"%v\"\n"` (src/main.go:283, and 286 with the empty default). -/
def renderAttrLine (p : String × String) : String :=
  "  " ++ p.1 ++ " = \"" ++ p.2 ++ "\"\n"

/-- One data block as written by src/main.go:280-290. -/
def renderDataBlock (b : DataBlock) : String :=
  "data \"" ++ b.resourceType ++ "\" \"" ++ b.resourceName ++ "\" \x7b\n"
    ++ String.join (b.attrs.map renderAttrLine) ++ "\x7d\n\n"

/-- The full content of `generated_data.tf`. -/
def genDataFileContent (outs : List AnnotatedOutput) (state : TerraformState)
    (schema : ProviderSchema) : Except GenErr String :=
  match dataBlocks outs state schema with
  | .error e => .error e
  | .ok bs => .ok (String.join (bs.map renderDataBlock))

/-! ### Code Generator: provider file (`createProviderFile`, src/main.go:298-331) -/

/-- The `/`-separated segment at position 2 of a provider source
identifier: `strings.Split(providerSource, "/")[2]` (src/main.go:315).
`none` models the index-out-of-range panic when the identifier has fewer
than three segments. -/
def seg2 (source : String) : Option String :=
  (splitSlash source).get? 2

/-- Model of the Go map assignment `providers[name] = source`: update the
existing entry in place, or append a new one.  Rendering the map in this
first-insertion order is the deterministic stand-in for Go's arbitrary map
iteration order at src/main.go:322 (cf. spec section 4.5). -/
def insertProvider (name source : String) : List (String × String) → List (String × String)
  | [] => [(name, source)]
  | p :: rest =>
    if p.1 == name then (name, source) :: rest else p :: insertProvider name source rest

/-- The provider loop of `createProviderFile` (src/main.go:313-318): every
provider entry whose `resourceSchemas` contains the resource type is
recorded under the segment-2 short name of its source identifier. -/
def providerFold (resourceType : String) :
    List (String × ProviderSchemaDetails) → List (String × String) →
    Except GenErr (List (String × String))
  | [], acc => .ok acc
  | p :: rest, acc =>
    if containsKey resourceType p.2.resourceSchemas then
      match seg2 p.1 with
      | some name => providerFold resourceType rest (insertProvider name p.1 acc)
      | none => .error .indexOutOfRange
    else providerFold resourceType rest acc

/-- The output loop of `createProviderFile` (src/main.go:307-319):
references are split and must have exactly three components
(`log.Fatalf` otherwise), then every provider owning the resource type is
recorded. -/
def providerEntriesAux (schema : ProviderSchema) :
    List (String × String) → List AnnotatedOutput → Except GenErr (List (String × String))
  | acc, [] => .ok acc
  | acc, o :: rest =>
    let parts := splitDots o.reference
    if parts.length = 3 then
      match providerFold (parts.getD 0 "") schema.providerSchemas acc with
      | .error e => .error e
      | .ok acc2 => providerEntriesAux schema acc2 rest
    else .error (.invalidRef o.reference)

/-- The `required_providers` entries `createProviderFile` writes. -/
def providerEntries (outs : List AnnotatedOutput) (schema : ProviderSchema) :
    Except GenErr (List (String × String)) :=
  providerEntriesAux schema [] outs

/-- One provider entry as written by src/main.go:323-325. -/
def renderProviderEntry (p : String × String) : String :=
  "    " ++ p.1 ++ " = \x7b\n      source = \"" ++ p.2 ++ "\"\n    \x7d\n"

/-- The full content of `generated_providers.tf` (src/main.go:320-328). -/
def genProvidersFileContent (outs : List AnnotatedOutput) (schema : ProviderSchema) :
    Except GenErr String :=
  match providerEntries outs schema with
  | .error e => .error e
  | .ok es =>
    .ok ("terraform \x7b\n  required_providers \x7b\n"
      ++ String.join (es.map renderProviderEntry) ++ "  \x7d\n\x7d\n")

/-! ### Code Generator: outputs file

Modelled from the spec: no function under `src/` writes
`generated_outputs.tf`; only the test suite (`TestProcessProject`) asserts
its existence and the example artifact
`examples/multiple-resources-multiple-annotations/interface/generated_outputs.tf`
shows its shape.  Spec sections 4.5 and 6 define it as one
`output "<name>" { value = data.<type>.<name>.<attributePath> }` block per
annotated declaration whose resource was matched, preserving the original
output name.
-/

/-- Modelled from the spec: one output block, preserving the declaration's
name and prefixing the original reference with `data.` so it addresses the
generated data block's attribute path. -/
def renderOutputBlock (o : AnnotatedOutput) : String :=
  "output \"" ++ o.output ++ "\" \x7b\n  value = data." ++ o.reference ++ "\n\x7d\n\n"

/-- Modelled from the spec: the full content of `generated_outputs.tf`,
one block per matched annotated declaration, in scan order. -/
def genOutputsFileContent (outs : List AnnotatedOutput) : String :=
  String.join (outs.map renderOutputBlock)

/-! ### Pipeline driver (the per-project body of `main`, src/main.go:402-421) -/

/-- The filtering loop of `main` (src/main.go:407-415): each annotated
output is matched (fatally rejecting references with fewer than two dotted
components); matches become `validOutputs`, non-matches receive the
per-occurrence warning.  Returns `(validOutputs, warnedOutputs)`. -/
def partitionOutputs (outs : List AnnotatedOutput) (schema : ProviderSchema) :
    Except GenErr (List AnnotatedOutput × List AnnotatedOutput) :=
  match outs with
  | [] => .ok ([], [])
  | o :: rest =>
    match findMatchingDataResource o.reference schema with
    | .error e => .error e
    | .ok (true, _) =>
      match partitionOutputs rest schema with
      | .error e => .error e
      | .ok (v, w) => .ok (o :: v, w)
    | .ok (false, _) =>
      match partitionOutputs rest schema with
      | .error e => .error e
      | .ok (v, w) => .ok (v, o :: w)

/-- The per-project pipeline run on already-scanned annotated outputs:
filter, then—when any declaration matched—generate the artifact set
(`.ok none` when no files are created).  The data file is written first,
then the provider file, matching the call order in `main`
(src/main.go:416-420); the outputs artifact is the spec-modelled third
file. -/
def runPipeline (outs : List AnnotatedOutput) (state : TerraformState) (schema : ProviderSchema) :
    Except GenErr (Option (List (String × String))) :=
  match partitionOutputs outs schema with
  | .error e => .error e
  | .ok (valid, _) =>
    if valid.isEmpty then .ok none
    else
      match genDataFileContent valid state schema with
      | .error e => .error e
      | .ok d =>
        match genProvidersFileContent valid schema with
        | .error e => .error e
        | .ok p =>
          .ok (some [("generated_data.tf", d), ("generated_providers.tf", p),
            ("generated_outputs.tf", genOutputsFileContent valid)])

/-! ### Lexicographic order on strings

The spec (section 4.3) requires the reimplementation to sort provider keys
lexically before search.  A kernel-reducible lexicographic comparison on
character lists, with the order properties needed for sorting.
-/

/-- Lexicographic comparison of character lists by code point. -/
def leChars : List Char → List Char → Bool
  | [], _ => true
  | _ :: _, [] => false
  | a :: as, b :: bs =>
    if a < b then true else if b < a then false else leChars as bs

/-- Lexicographic order on strings, as a proposition. -/
def StrLeP (s t : String) : Prop :=
  leChars s.data t.data = true

instance : DecidableRel StrLeP :=
  fun a b => inferInstanceAs (Decidable (leChars a.data b.data = true))

/-- Sort a list of strings lexically. -/
def sortStrings (l : List String) : List String :=
  List.insertionSort StrLeP l

/-! ### Deterministic (sorted) pipeline

Modelled from the spec: section 4.3 states that match selection "must be
made deterministic by sorting provider keys lexically before search
(documented requirement for the reimplementation, since the source
behavior was accidental)" and that required attributes are listed "in the
same deterministic (sorted) order" — this sorting is absent from the
source under `src/`, which iterates unordered Go maps.  The definitions
below are the source pipeline with exactly that sorting applied at each
map iteration the artifacts depend on.
-/

/-- Modelled from the spec (section 4.3): the matcher's provider search
over lexically sorted provider keys. -/
def findDSSorted (resourceType : String) (schema : ProviderSchema) : Option ResourceSchema :=
  match (sortStrings (keysOf schema.providerSchemas)).find?
      (fun k =>
        match lookupKey k schema.providerSchemas with
        | some d => containsKey resourceType d.dataSourceSchemas
        | none => false) with
  | some k =>
    match lookupKey k schema.providerSchemas with
    | some d => lookupKey resourceType d.dataSourceSchemas
    | none => none
  | none => none

/-- Modelled from the spec (section 4.3): `findMatchingDataResource` with
the sort-based tie-break and sorted required attributes. -/
def findMatchingDataResourceSorted (reference : String) (schema : ProviderSchema) :
    Except GenErr (Bool × List String) :=
  let parts := splitDots reference
  if parts.length < 2 then .error (.invalidRef reference)
  else
    match findDSSorted (parts.getD 0 "") schema with
    | some ds => .ok (true, sortStrings (requiredAttrNames ds))
    | none => .ok (false, [])

/-- The filtering loop of `main` with the deterministic matcher. -/
def partitionOutputsSorted (outs : List AnnotatedOutput) (schema : ProviderSchema) :
    Except GenErr (List AnnotatedOutput × List AnnotatedOutput) :=
  match outs with
  | [] => .ok ([], [])
  | o :: rest =>
    match findMatchingDataResourceSorted o.reference schema with
    | .error e => .error e
    | .ok (true, _) =>
      match partitionOutputsSorted rest schema with
      | .error e => .error e
      | .ok (v, w) => .ok (o :: v, w)
    | .ok (false, _) =>
      match partitionOutputsSorted rest schema with
      | .error e => .error e
      | .ok (v, w) => .ok (v, o :: w)

/-- `createTerraformFile`'s block loop with the deterministic matcher. -/
def dataBlocksSortedAux (state : TerraformState) (schema : ProviderSchema) (seen : List String) :
    List AnnotatedOutput → Except GenErr (List DataBlock)
  | [] => .ok []
  | o :: rest =>
    let parts := splitDots o.reference
    if parts.length = 3 then
      let resourceType := parts.getD 0 ""
      let resourceName := parts.getD 1 ""
      let uniqueKey := resourceType ++ "." ++ resourceName
      if seen.contains uniqueKey then dataBlocksSortedAux state schema seen rest
      else
        let resourceReference := resourceType ++ "." ++ resourceName
        match findMatchingDataResourceSorted resourceReference schema with
        | .error e => .error e
        | .ok (true, req) =>
          let b : DataBlock :=
            ⟨resourceType, resourceName,
              req.map (fun a => (a, (extractAttributeValue resourceReference a state).getD ""))⟩
          match dataBlocksSortedAux state schema (uniqueKey :: seen) rest with
          | .error e => .error e
          | .ok bs => .ok (b :: bs)
        | .ok (false, _) => dataBlocksSortedAux state schema (uniqueKey :: seen) rest
    else .error (.invalidRef o.reference)

/-- `createProviderFile`'s provider loop over lexically sorted provider
keys. -/
def providerFoldSortedAux (resourceType : String) (schema : ProviderSchema) :
    List String → List (String × String) → Except GenErr (List (String × String))
  | [], acc => .ok acc
  | k :: ks, acc =>
    match lookupKey k schema.providerSchemas with
    | some d =>
      if containsKey resourceType d.resourceSchemas then
        match seg2 k with
        | some name => providerFoldSortedAux resourceType schema ks (insertProvider name k acc)
        | none => .error .indexOutOfRange
      else providerFoldSortedAux resourceType schema ks acc
    | none => providerFoldSortedAux resourceType schema ks acc

/-- `createProviderFile`'s output loop with sorted provider iteration. -/
def providerEntriesSortedAux (schema : ProviderSchema) :
    List (String × String) → List AnnotatedOutput → Except GenErr (List (String × String))
  | acc, [] => .ok acc
  | acc, o :: rest =>
    let parts := splitDots o.reference
    if parts.length = 3 then
      match providerFoldSortedAux (parts.getD 0 "") schema
          (sortStrings (keysOf schema.providerSchemas)) acc with
      | .error e => .error e
      | .ok acc2 => providerEntriesSortedAux schema acc2 rest
    else .error (.invalidRef o.reference)

/-- The deterministic pipeline run: the source pipeline with the
spec-required lexical sorting at every schema-map iteration. -/
def runPipelineSorted (outs : List AnnotatedOutput) (state : TerraformState)
    (schema : ProviderSchema) : Except GenErr (Option (List (String × String))) :=
  match partitionOutputsSorted outs schema with
  | .error e => .error e
  | .ok (valid, _) =>
    if valid.isEmpty then .ok none
    else
      match dataBlocksSortedAux state schema [] valid with
      | .error e => .error e
      | .ok bs =>
        match providerEntriesSortedAux schema [] valid with
        | .error e => .error e
        | .ok es =>
          .ok (some [("generated_data.tf", String.join (bs.map renderDataBlock)),
            ("generated_providers.tf",
              "terraform \x7b\n  required_providers \x7b\n"
                ++ String.join (es.map renderProviderEntry) ++ "  \x7d\n\x7d\n"),
            ("generated_outputs.tf", genOutputsFileContent valid)])

/-! ### Snapshot equivalence

Two runs of the external collaborator on identical inputs hand the core
the same JSON snapshots, but every Go map inside them may be iterated in a
different order.  `SchemaEquiv` is the induced relation on the embedded
snapshots: at every mapping level, the same key multiset and, pointwise,
equivalent values.
-/

/-- Lift a relation to `Option`: both absent, or both present and related. -/
def optRel (R : α → α → Prop) : Option α → Option α → Prop
  | some a, some b => R a b
  | none, none => True
  | _, _ => False

instance optRel.instDecidable (R : α → α → Prop) [DecidableRel R] :
    ∀ o₁ o₂ : Option α, Decidable (optRel R o₁ o₂)
  | some a, some b => inferInstanceAs (Decidable (R a b))
  | none, none => .isTrue trivial
  | some _, none => .isFalse (fun h => h)
  | none, some _ => .isFalse (fun h => h)

/-- Two association lists present the same finite map up to value
equivalence: same key multiset, and pointwise-related lookups. -/
def MapEquiv (R : α → α → Prop) (m n : List (String × α)) : Prop :=
  (keysOf m).Perm (keysOf n) ∧ ∀ k ∈ keysOf m, optRel R (lookupKey k m) (lookupKey k n)

instance MapEquiv.instDecidable (R : α → α → Prop) [DecidableRel R]
    (m n : List (String × α)) : Decidable (MapEquiv R m n) :=
  inferInstanceAs (Decidable (_ ∧ _))

/-- Resource-schema equivalence: the same attribute mapping, in any
iteration order. -/
def RSEquiv (r s : ResourceSchema) : Prop :=
  r.block.attributes.Perm s.block.attributes

instance : DecidableRel RSEquiv :=
  fun r s => inferInstanceAs (Decidable (r.block.attributes.Perm s.block.attributes))

/-- Provider-details equivalence: both schema mappings agree up to order. -/
def DetailsEquiv (d e : ProviderSchemaDetails) : Prop :=
  MapEquiv RSEquiv d.resourceSchemas e.resourceSchemas ∧
    MapEquiv RSEquiv d.dataSourceSchemas e.dataSourceSchemas

instance : DecidableRel DetailsEquiv :=
  fun d e => inferInstanceAs (Decidable (MapEquiv RSEquiv d.resourceSchemas e.resourceSchemas ∧
    MapEquiv RSEquiv d.dataSourceSchemas e.dataSourceSchemas))

/-- Provider-schema-snapshot equivalence: the same snapshot content, with
every unordered mapping presented in arbitrary iteration order. -/
def SchemaEquiv (s t : ProviderSchema) : Prop :=
  MapEquiv DetailsEquiv s.providerSchemas t.providerSchemas

instance : DecidableRel SchemaEquiv :=
  fun s t => inferInstanceAs (Decidable (MapEquiv DetailsEquiv s.providerSchemas t.providerSchemas))

/-! ### Order properties of the lexicographic comparison -/

theorem leChars_total : ∀ as bs : List Char, leChars as bs = true ∨ leChars bs as = true := by
  intro as
  induction as with
  | nil => intro bs; left; rfl
  | cons a as ih =>
    intro bs
    cases bs with
    | nil => right; rfl
    | cons b bs =>
      simp only [leChars]
      rcases lt_trichotomy a b with h | h | h
      · left; simp [h]
      · subst h
        simpa [lt_irrefl] using ih bs
      · right; simp [h]

theorem leChars_trans :
    ∀ as bs cs : List Char, leChars as bs = true → leChars bs cs = true →
      leChars as cs = true := by
  intro as
  induction as with
  | nil => intro bs cs _ _; rfl
  | cons a as ih =>
    intro bs cs h1 h2
    cases bs with
    | nil => simp [leChars] at h1
    | cons b bs =>
      cases cs with
      | nil => simp [leChars] at h2
      | cons c cs =>
        simp only [leChars] at h1 h2 ⊢
        by_cases hab : a < b
        · by_cases hbc : b < c
          · simp [lt_trans hab hbc]
          · by_cases hcb : c < b
            · simp [hbc, hcb] at h2
            · have hbc' : b = c := le_antisymm (le_of_not_lt hcb) (le_of_not_lt hbc)
              subst hbc'
              simp [hab]
        · by_cases hba : b < a
          · simp [hab, hba] at h1
          · have hab' : a = b := le_antisymm (le_of_not_lt hba) (le_of_not_lt hab)
            subst hab'
            simp only [lt_irrefl, if_false] at h1
            by_cases hac : a < c
            · simp [hac]
            · by_cases hca : c < a
              · simp [hac, hca] at h2
              · simp only [hac, hca, if_false] at h2 ⊢
                exact ih bs cs h1 h2

theorem leChars_antisymm :
    ∀ as bs : List Char, leChars as bs = true → leChars bs as = true → as = bs := by
  intro as
  induction as with
  | nil =>
    intro bs h1 h2
    cases bs with
    | nil => rfl
    | cons b bs => simp [leChars] at h2
  | cons a as ih =>
    intro bs h1 h2
    cases bs with
    | nil => simp [leChars] at h1
    | cons b bs =>
      simp only [leChars] at h1 h2
      by_cases hab : a < b
      · simp [asymm hab, hab] at h2
      · by_cases hba : b < a
        · simp [hab, hba] at h1
        · have hab' : a = b := le_antisymm (le_of_not_lt hba) (le_of_not_lt hab)
          subst hab'
          simp only [lt_irrefl, if_false] at h1 h2
          rw [ih bs h1 h2]

instance : IsTotal String StrLeP :=
  ⟨fun a b => leChars_total a.data b.data⟩

instance : IsTrans String StrLeP :=
  ⟨fun a b c => leChars_trans a.data b.data c.data⟩

instance : IsAntisymm String StrLeP := by
  refine ⟨fun a b h1 h2 => ?_⟩
  cases a; cases b
  exact congrArg String.mk (leChars_antisymm _ _ h1 h2)

theorem sortStrings_perm (l : List String) : (sortStrings l).Perm l :=
  List.perm_insertionSort _ l

theorem sortStrings_sorted (l : List String) : List.Sorted StrLeP (sortStrings l) :=
  List.sorted_insertionSort _ l

/-- Sorting is invariant under permutation of the input: the formal core of
the spec's determinism requirement. -/
theorem sortStrings_eq_of_perm {l₁ l₂ : List String} (h : l₁.Perm l₂) :
    sortStrings l₁ = sortStrings l₂ :=
  List.eq_of_perm_of_sorted
    ((sortStrings_perm l₁).trans (h.trans (sortStrings_perm l₂).symm))
    (sortStrings_sorted l₁) (sortStrings_sorted l₂)

/-! ### Association-list lemmas -/

theorem lookupKey_eq_none {m : List (String × α)} {k : String}
    (h : k ∉ keysOf m) : lookupKey k m = none := by
  unfold lookupKey
  cases hf : m.find? (fun p => p.1 == k) with
  | none => rfl
  | some p =>
    exact absurd (List.mem_map.mpr ⟨p, List.mem_of_find?_eq_some hf,
      by simpa using List.find?_some hf⟩) h

theorem containsKey_iff {m : List (String × α)} {k : String} :
    containsKey k m = true ↔ k ∈ keysOf m := by
  unfold containsKey keysOf
  rw [List.find?_isSome]
  constructor
  · rintro ⟨p, hp, hpk⟩
    exact List.mem_map.mpr ⟨p, hp, by simpa using hpk⟩
  · intro hk
    obtain ⟨p, hp, hpk⟩ := List.mem_map.mp hk
    exact ⟨p, hp, by simp [hpk]⟩

theorem containsKey_eq_of_keysPerm {m n : List (String × α)} {k : String}
    (h : (keysOf m).Perm (keysOf n)) : containsKey k m = containsKey k n := by
  rw [Bool.eq_iff_iff, containsKey_iff, containsKey_iff]
  exact h.mem_iff

theorem MapEquiv.lookupRel {R : α → α → Prop} {m n : List (String × α)}
    (h : MapEquiv R m n) (k : String) :
    optRel R (lookupKey k m) (lookupKey k n) := by
  by_cases hk : k ∈ keysOf m
  · exact h.2 k hk
  · rw [lookupKey_eq_none hk, lookupKey_eq_none (fun hn => hk (h.1.mem_iff.mpr hn))]
    trivial

/-! ### Lemmas about `strings.Split` -/

theorem splitOnChar_ne_nil (c : Char) : ∀ cs : List Char, splitOnChar c cs ≠ [] := by
  intro cs
  cases cs with
  | nil => simp [splitOnChar]
  | cons a rest =>
    by_cases h : a == c
    · simp [splitOnChar, h]
    · simp only [splitOnChar, h, Bool.false_eq_true, if_false]
      cases splitOnChar c rest <;> simp

theorem splitOnChar_pieces_not_mem (c : Char) :
    ∀ cs : List Char, ∀ piece ∈ splitOnChar c cs, c ∉ piece := by
  intro cs
  induction cs with
  | nil =>
    intro piece hp
    simp only [splitOnChar, List.mem_singleton] at hp
    simp [hp]
  | cons a rest ih =>
    intro piece hp
    by_cases h : a == c
    · simp only [splitOnChar, h, if_true, List.mem_cons] at hp
      rcases hp with hp | hp
      · simp [hp]
      · exact ih piece hp
    · simp only [splitOnChar, h, Bool.false_eq_true, if_false] at hp
      have hne : c ≠ a := fun hca => by simp [hca.symm] at h
      cases hr : splitOnChar c rest with
      | nil => exact absurd hr (splitOnChar_ne_nil c rest)
      | cons hd tl =>
        rw [hr] at hp
        simp only [List.mem_cons] at hp
        rcases hp with hp | hp
        · subst hp
          intro hmem
          rcases List.mem_cons.mp hmem with hmem | hmem
          · exact hne hmem
          · exact ih hd (by rw [hr]; exact List.mem_cons_self hd tl) hmem
        · exact ih piece (by rw [hr]; exact List.mem_cons_of_mem hd hp)

theorem splitOnChar_of_not_mem {c : Char} {cs : List Char} (h : c ∉ cs) :
    splitOnChar c cs = [cs] := by
  induction cs with
  | nil => rfl
  | cons a rest ih =>
    have hac : ¬(a == c) = true := by
      simp only [beq_iff_eq]
      exact fun hac => h (by simp [hac])
    have hr : splitOnChar c rest = [rest] := ih (fun hm => h (List.mem_cons_of_mem a hm))
    simp [splitOnChar, hac, hr]

theorem splitOnChar_append {c : Char} {l₁ : List Char} (l₂ : List Char) (h : c ∉ l₁) :
    splitOnChar c (l₁ ++ c :: l₂) = l₁ :: splitOnChar c l₂ := by
  induction l₁ with
  | nil => simp [splitOnChar]
  | cons a l₁ ih =>
    have hac : ¬(a == c) = true := by
      simp only [beq_iff_eq]
      exact fun hac => h (by simp [hac])
    have hr := ih (fun hm => h (List.mem_cons_of_mem a hm))
    simp [splitOnChar, hac, hr]

theorem splitDots_pair {t n : String} (ht : '.' ∉ t.data) (hn : '.' ∉ n.data) :
    splitDots (t ++ "." ++ n) = [t, n] := by
  unfold splitDots
  have hdata : (t ++ "." ++ n).data = t.data ++ '.' :: n.data := by
    rw [String.data_append, String.data_append]
    simp
  rw [hdata, splitOnChar_append _ ht, splitOnChar_of_not_mem hn]
  simp

/-- The first component of a two-component reference, as read by
`findMatchingDataResource`. -/
theorem splitDots_pair_getD {t n : String} (ht : '.' ∉ t.data) (hn : '.' ∉ n.data) :
    (splitDots (t ++ "." ++ n)).getD 0 "" = t ∧ (splitDots (t ++ "." ++ n)).length = 2 := by
  rw [splitDots_pair ht hn]
  exact ⟨rfl, rfl⟩

/-- A three-component list is its `getD` decomposition. -/
theorem list_eq_of_length_three {l : List String} (h : l.length = 3) :
    l = [l.getD 0 "", l.getD 1 "", l.getD 2 ""] := by
  match l, h with
  | [a, b, c], _ => rfl

/-- The pieces of a split never contain the separator; stated for
`splitDots` components. -/
theorem splitDots_mem_not_dot {s p : String} (hp : p ∈ splitDots s) : '.' ∉ p.data := by
  unfold splitDots at hp
  obtain ⟨cs, hcs, hcast⟩ := List.mem_map.mp hp
  subst hcast
  exact splitOnChar_pieces_not_mem '.' s.data cs hcs

/-- Distinct addresses give distinct `type.name` keys, provided the
components are dot-free (as split components always are). -/
theorem pair_key_inj {t n t' n' : String} (ht : '.' ∉ t.data) (hn : '.' ∉ n.data)
    (ht' : '.' ∉ t'.data) (hn' : '.' ∉ n'.data) :
    t ++ "." ++ n = t' ++ "." ++ n' ↔ t = t' ∧ n = n' := by
  constructor
  · intro h
    have hlist : ([t, n] : List String) = [t', n'] := by
      rw [← splitDots_pair ht hn, h, splitDots_pair ht' hn']
    simp only [List.cons.injEq, and_true] at hlist
    exact hlist
  · rintro ⟨rfl, rfl⟩; rfl

theorem joinSep_splitOnChar (c : Char) : ∀ cs : List Char, joinSep c (splitOnChar c cs) = cs := by
  intro cs
  induction cs with
  | nil => rfl
  | cons a rest ih =>
    by_cases h : a == c
    · have ha : a = c := by simpa using h
      subst ha
      simp only [splitOnChar, beq_self_eq_true, if_true]
      cases hr : splitOnChar a rest with
      | nil => exact absurd hr (splitOnChar_ne_nil a rest)
      | cons hd tl =>
        rw [hr] at ih
        simp [joinSep, ih]
    · simp only [splitOnChar, h, Bool.false_eq_true, if_false]
      cases hr : splitOnChar c rest with
      | nil => exact absurd hr (splitOnChar_ne_nil c rest)
      | cons hd tl =>
        rw [hr] at ih
        cases tl with
        | nil => simpa [joinSep] using congrArg (a :: ·) ih
        | cons p ps =>
          simp only [joinSep] at ih ⊢
          simpa using congrArg (a :: ·) ih

/-- A reference whose split has exactly three components is the dotted
join of those components. -/
theorem splitDots_reconstruct {s t n a : String} (h : splitDots s = [t, n, a]) :
    s = t ++ "." ++ n ++ "." ++ a := by
  unfold splitDots at h
  have hj := joinSep_splitOnChar '.' s.data
  match hsp : splitOnChar '.' s.data, h with
  | [l1, l2, l3], h =>
    rw [hsp] at hj
    simp only [List.map, List.cons.injEq, and_true] at h
    obtain ⟨h1, h2, h3⟩ := h
    apply String.ext
    rw [← hj]
    have e1 : l1 = t.data := by rw [← h1]
    have e2 : l2 = n.data := by rw [← h2]
    have e3 : l3 = a.data := by rw [← h3]
    subst e1; subst e2; subst e3
    simp [joinSep, String.data_append]

/-! ### Matcher lemmas -/

/-- A reference with at least two components never aborts the matcher. -/
theorem findMatchingDataResource_ok {ref : String} (h : 2 ≤ (splitDots ref).length)
    (schema : ProviderSchema) :
    findMatchingDataResource ref schema =
      (match findDS ((splitDots ref).getD 0 "") schema.providerSchemas with
       | some ds => .ok (true, requiredAttrNames ds)
       | none => .ok (false, [])) := by
  simp only [findMatchingDataResource]
  rw [if_neg (by omega)]

/-- A reference with fewer than two components aborts the matcher. -/
theorem findMatchingDataResource_fatal {ref : String} (h : (splitDots ref).length < 2)
    (schema : ProviderSchema) :
    findMatchingDataResource ref schema = .error (.invalidRef ref) := by
  simp only [findMatchingDataResource]
  rw [if_pos h]

/-- On a dot-free `type.name` address, the matcher reduces to the provider
search for `type`. -/
theorem findMatchingDataResource_pair {t n : String} (ht : '.' ∉ t.data) (hn : '.' ∉ n.data)
    (schema : ProviderSchema) :
    findMatchingDataResource (t ++ "." ++ n) schema =
      (match findDS t schema.providerSchemas with
       | some ds => .ok (true, requiredAttrNames ds)
       | none => .ok (false, [])) := by
  simp only [findMatchingDataResource, splitDots_pair ht hn]
  simp

/-- The first two components of a three-part reference are dot-free, and
the reference decomposes as `[refType, refName, attributePath]`. -/
theorem refComponents_dotfree {o : AnnotatedOutput}
    (h3 : (splitDots o.reference).length = 3) :
    '.' ∉ (refType o).data ∧ '.' ∉ (refName o).data ∧
      splitDots o.reference = [refType o, refName o, (splitDots o.reference).getD 2 ""] := by
  have hl := list_eq_of_length_three h3
  have hmem0 : refType o ∈ splitDots o.reference := by
    rw [refType]
    conv => rw [hl]
    simp [List.getD]
  have hmem1 : refName o ∈ splitDots o.reference := by
    rw [refName]
    conv => rw [hl]
    simp [List.getD]
  exact ⟨splitDots_mem_not_dot hmem0, splitDots_mem_not_dot hmem1, hl⟩

/-! ### The filtering loop of `main` -/

/-- When every reference has at least two components the filter never
aborts: it partitions the annotated outputs by whether a data source of
their resource type exists. -/
theorem partitionOutputs_eq (outs : List AnnotatedOutput) (sc : ProviderSchema)
    (hwf : ∀ o ∈ outs, 2 ≤ (splitDots o.reference).length) :
    partitionOutputs outs sc =
      .ok (outs.filter (fun o => (findDS (refType o) sc.providerSchemas).isSome),
           outs.filter (fun o => (findDS (refType o) sc.providerSchemas).isNone)) := by
  induction outs with
  | nil => rfl
  | cons o rest ih =>
    have hok := findMatchingDataResource_ok (hwf o (List.mem_cons_self o rest)) sc
    have hok' : findMatchingDataResource o.reference sc =
        (match findDS (refType o) sc.providerSchemas with
         | some ds => .ok (true, requiredAttrNames ds)
         | none => .ok (false, [])) := hok
    simp only [partitionOutputs]
    rw [hok', ih (fun o' ho' => hwf o' (List.mem_cons_of_mem _ ho'))]
    cases hds : findDS (refType o) sc.providerSchemas with
    | some ds => simp [List.filter_cons, hds]
    | none => simp [List.filter_cons, hds]

/-- A reference with fewer than two components aborts the filtering loop
(and with it the whole run) with the `Invalid reference format` fatal. -/
theorem partitionOutputs_fatal (outs : List AnnotatedOutput) (sc : ProviderSchema)
    (h : ∃ o ∈ outs, (splitDots o.reference).length < 2) :
    ∃ r, partitionOutputs outs sc = .error (.invalidRef r) := by
  induction outs with
  | nil =>
    obtain ⟨o, ho, -⟩ := h
    exact absurd ho (List.not_mem_nil o)
  | cons o rest ih =>
    by_cases hlen : (splitDots o.reference).length < 2
    · exact ⟨o.reference, by simp [partitionOutputs, findMatchingDataResource_fatal hlen]⟩
    · have hrest : ∃ o' ∈ rest, (splitDots o'.reference).length < 2 := by
        obtain ⟨o', ho', hl⟩ := h
        rcases List.mem_cons.mp ho' with rfl | hm
        · exact absurd hl hlen
        · exact ⟨o', hm, hl⟩
      obtain ⟨r, hr⟩ := ih hrest
      refine ⟨r, ?_⟩
      have hok := @findMatchingDataResource_ok o.reference (by omega) sc
      simp only [partitionOutputs]
      rw [hok]
      cases findDS ((splitDots o.reference).getD 0 "") sc.providerSchemas <;> simp [hr]

/-- C3 (amended): a reference with fewer than two dotted components aborts
the entire run with the `Invalid reference format` fatal error during the
filtering loop; the declaration is not dropped locally and the remaining
declarations are not processed. -/
theorem c3_malformed_reference_aborts_run (outs : List AnnotatedOutput)
    (st : TerraformState) (sc : ProviderSchema)
    (h : ∃ o ∈ outs, (splitDots o.reference).length < 2) :
    ∃ r, runPipeline outs st sc = .error (.invalidRef r) := by
  obtain ⟨r, hr⟩ := partitionOutputs_fatal outs sc h
  exact ⟨r, by simp [runPipeline, hr]⟩

/-- C3 counterexample: a concrete run containing one malformed declaration
(`"foo"`, a single component) followed by a declaration that would match.
The pipeline terminates with the fatal `Invalid reference format` error:
the malformed declaration is not dropped, no diagnostic-and-continue
happens, and the second declaration is never processed into artifacts. -/
theorem c3_counterexample :
    runPipeline
      [⟨"main.tf", 1, "bad", "foo", ""⟩, ⟨"main.tf", 5, "good", "t.n.id", ""⟩]
      ⟨[]⟩
      ⟨[("registry.example/acme/t", ⟨[], [("t", ⟨⟨[]⟩⟩)]⟩)]⟩
      = .error (.invalidRef "foo") := by
  decide

/-- Witness for C3's amended theorem at a concrete input. -/
theorem c3_malformed_reference_aborts_run_witness :
    (∃ o ∈ ([⟨"main.tf", 1, "bad", "foo", ""⟩, ⟨"main.tf", 5, "good", "t.n.id", ""⟩] :
        List AnnotatedOutput), (splitDots o.reference).length < 2) ∧
    ∃ r, runPipeline
      [⟨"main.tf", 1, "bad", "foo", ""⟩, ⟨"main.tf", 5, "good", "t.n.id", ""⟩]
      ⟨[]⟩ ⟨[("registry.example/acme/t", ⟨[], [("t", ⟨⟨[]⟩⟩)]⟩)]⟩ = .error (.invalidRef r) :=
  ⟨by decide, c3_malformed_reference_aborts_run _ _ _ (by decide)⟩

/-! ### Fatal paths of the generation phase (C9) -/

theorem dataBlocksAux_fatal (st : TerraformState) (sc : ProviderSchema) :
    ∀ (outs : List AnnotatedOutput) (seen : List String),
      (∃ o ∈ outs, (splitDots o.reference).length ≠ 3) →
      ∃ e, dataBlocksAux st sc seen outs = .error e := by
  intro outs
  induction outs with
  | nil =>
    rintro seen ⟨o, ho, -⟩
    exact absurd ho (List.not_mem_nil o)
  | cons o rest ih =>
    intro seen h
    by_cases h3 : (splitDots o.reference).length = 3
    · have hrest : ∃ o' ∈ rest, (splitDots o'.reference).length ≠ 3 := by
        obtain ⟨o', ho', hne⟩ := h
        rcases List.mem_cons.mp ho' with rfl | hm
        · exact absurd h3 hne
        · exact ⟨o', hm, hne⟩
      obtain ⟨ht, hn, -⟩ := refComponents_dotfree h3
      simp only [dataBlocksAux]
      rw [if_pos h3]
      rw [@findMatchingDataResource_pair ((splitDots o.reference).getD 0 "")
        ((splitDots o.reference).getD 1 "") ht hn sc]
      by_cases hseen : seen.contains
          ((splitDots o.reference).getD 0 "" ++ "." ++ (splitDots o.reference).getD 1 "") = true
      · rw [if_pos hseen]
        exact ih seen hrest
      · rw [if_neg hseen]
        cases findDS ((splitDots o.reference).getD 0 "") sc.providerSchemas with
        | some ds =>
          obtain ⟨e, he⟩ := ih
            (((splitDots o.reference).getD 0 "" ++ "." ++ (splitDots o.reference).getD 1 "") :: seen)
            hrest
          exact ⟨e, by rw [he]⟩
        | none => exact ih _ hrest
    · refine ⟨.invalidRef o.reference, ?_⟩
      simp only [dataBlocksAux]
      rw [if_neg h3]

theorem providerEntriesAux_fatal (sc : ProviderSchema) :
    ∀ (outs : List AnnotatedOutput) (acc : List (String × String)),
      (∃ o ∈ outs, (splitDots o.reference).length ≠ 3) →
      ∃ e, providerEntriesAux sc acc outs = .error e := by
  intro outs
  induction outs with
  | nil =>
    rintro acc ⟨o, ho, -⟩
    exact absurd ho (List.not_mem_nil o)
  | cons o rest ih =>
    intro acc h
    by_cases h3 : (splitDots o.reference).length = 3
    · have hrest : ∃ o' ∈ rest, (splitDots o'.reference).length ≠ 3 := by
        obtain ⟨o', ho', hne⟩ := h
        rcases List.mem_cons.mp ho' with rfl | hm
        · exact absurd h3 hne
        · exact ⟨o', hm, hne⟩
      simp only [providerEntriesAux]
      rw [if_pos h3]
      cases providerFold ((splitDots o.reference).getD 0 "") sc.providerSchemas acc with
      | error e => exact ⟨e, rfl⟩
      | ok acc2 => exact ih acc2 hrest
    · refine ⟨.invalidRef o.reference, ?_⟩
      simp only [providerEntriesAux]
      rw [if_neg h3]

/-- C9: if any declaration handed to the generation step has a reference
that does not split into exactly three dotted components — including the
two-component `type.name` form, which passes the match filter — both
`createTerraformFile` and `createProviderFile` terminate the program with
a fatal error rather than emitting or skipping a block for it. -/
theorem c9_generation_fatal_on_non_three_part (outs : List AnnotatedOutput)
    (st : TerraformState) (sc : ProviderSchema)
    (h : ∃ o ∈ outs, (splitDots o.reference).length ≠ 3) :
    (∃ e, dataBlocks outs st sc = .error e) ∧
      (∃ e, providerEntries outs sc = .error e) :=
  ⟨dataBlocksAux_fatal st sc outs [] h, providerEntriesAux_fatal sc outs [] h⟩

/-! ### Data-block lemmas: totality, membership, uniqueness -/

/-- With well-formed (three-part) references the data-block loop never
aborts. -/
theorem dataBlocksAux_ok_of_wf (st : TerraformState) (sc : ProviderSchema) :
    ∀ (outs : List AnnotatedOutput) (seen : List String),
      (∀ o ∈ outs, (splitDots o.reference).length = 3) →
      ∃ bs, dataBlocksAux st sc seen outs = .ok bs := by
  intro outs
  induction outs with
  | nil => exact fun seen _ => ⟨[], rfl⟩
  | cons o rest ih =>
    intro seen hwf
    have h3 := hwf o (List.mem_cons_self o rest)
    have hwfr : ∀ o' ∈ rest, (splitDots o'.reference).length = 3 :=
      fun o' h => hwf o' (List.mem_cons_of_mem _ h)
    obtain ⟨hto, hno, -⟩ := refComponents_dotfree h3
    simp only [dataBlocksAux]
    rw [if_pos h3]
    rw [@findMatchingDataResource_pair ((splitDots o.reference).getD 0 "")
      ((splitDots o.reference).getD 1 "") hto hno sc]
    by_cases hseen : seen.contains
        ((splitDots o.reference).getD 0 "" ++ "." ++ (splitDots o.reference).getD 1 "") = true
    · rw [if_pos hseen]; exact ih seen hwfr
    · rw [if_neg hseen]
      cases findDS ((splitDots o.reference).getD 0 "") sc.providerSchemas with
      | some ds =>
        obtain ⟨bs, hbs⟩ := ih
          (((splitDots o.reference).getD 0 "" ++ "." ++ (splitDots o.reference).getD 1 "") :: seen)
          hwfr
        exact ⟨_, by rw [hbs]⟩
      | none => exact ih _ hwfr

/-- The canonical data block the generator builds for a matched address:
required attributes in schema order, each resolved from state with the
empty-string default. -/
theorem dataBlocksAux_mem_block (st : TerraformState) (sc : ProviderSchema)
    {t n : String} (ht : '.' ∉ t.data) (hn : '.' ∉ n.data)
    {ds : ResourceSchema} (hds : findDS t sc.providerSchemas = some ds) :
    ∀ (outs : List AnnotatedOutput) (seen : List String),
      (∀ o ∈ outs, (splitDots o.reference).length = 3) →
      (∃ o ∈ outs, refType o = t ∧ refName o = n) →
      (t ++ "." ++ n) ∉ seen →
      ∃ bs, dataBlocksAux st sc seen outs = .ok bs ∧
        (⟨t, n, (requiredAttrNames ds).map
          (fun a => (a, (extractAttributeValue (t ++ "." ++ n) a st).getD ""))⟩ : DataBlock) ∈ bs := by
  intro outs
  induction outs with
  | nil =>
    rintro seen _ ⟨o, ho, -⟩
    exact absurd ho (List.not_mem_nil o)
  | cons o rest ih =>
    intro seen hwf hex hnotseen
    have h3 := hwf o (List.mem_cons_self o rest)
    have hwfr : ∀ o' ∈ rest, (splitDots o'.reference).length = 3 :=
      fun o' h => hwf o' (List.mem_cons_of_mem _ h)
    obtain ⟨hto, hno, -⟩ := refComponents_dotfree h3
    simp only [dataBlocksAux]
    rw [if_pos h3]
    rw [@findMatchingDataResource_pair ((splitDots o.reference).getD 0 "")
      ((splitDots o.reference).getD 1 "") hto hno sc]
    by_cases haddr : refType o = t ∧ refName o = n
    · obtain ⟨h1, h2⟩ := haddr
      rw [show (splitDots o.reference).getD 0 "" = t from h1,
          show (splitDots o.reference).getD 1 "" = n from h2]
      have hseen : ¬(seen.contains (t ++ "." ++ n) = true) := by
        simpa using hnotseen
      rw [if_neg hseen, hds]
      obtain ⟨bs, hbs⟩ := dataBlocksAux_ok_of_wf st sc rest ((t ++ "." ++ n) :: seen) hwfr
      rw [hbs]
      exact ⟨_, rfl, List.mem_cons_self _ _⟩
    · have hex' : ∃ o' ∈ rest, refType o' = t ∧ refName o' = n := by
        obtain ⟨o', ho', hadd⟩ := hex
        rcases List.mem_cons.mp ho' with rfl | hm
        · exact absurd hadd haddr
        · exact ⟨o', hm, hadd⟩
      have hkeyne : t ++ "." ++ n ≠
          (splitDots o.reference).getD 0 "" ++ "." ++ (splitDots o.reference).getD 1 "" := by
        intro he
        exact haddr ⟨((pair_key_inj ht hn hto hno).mp he).1.symm,
          ((pair_key_inj ht hn hto hno).mp he).2.symm⟩
      by_cases hseen : seen.contains
          ((splitDots o.reference).getD 0 "" ++ "." ++ (splitDots o.reference).getD 1 "") = true
      · rw [if_pos hseen]
        exact ih seen hwfr hex' hnotseen
      · rw [if_neg hseen]
        have hnotseen' : (t ++ "." ++ n) ∉
            ((splitDots o.reference).getD 0 "" ++ "." ++ (splitDots o.reference).getD 1 "") :: seen := by
          intro hm
          rcases List.mem_cons.mp hm with he | hm
          · exact hkeyne he
          · exact hnotseen hm
        cases findDS ((splitDots o.reference).getD 0 "") sc.providerSchemas with
        | some ds' =>
          obtain ⟨bs, hbs, hmem⟩ := ih _ hwfr hex' hnotseen'
          rw [hbs]
          exact ⟨_, rfl, List.mem_cons_of_mem _ hmem⟩
        | none => exact ih _ hwfr hex' hnotseen'

/-- The address key of a data block. -/
theorem dataBlocksAux_keys_nodup (st : TerraformState) (sc : ProviderSchema) :
    ∀ (outs : List AnnotatedOutput) (seen : List String) (bs : List DataBlock),
      dataBlocksAux st sc seen outs = .ok bs →
      (∀ b ∈ bs, (b.resourceType ++ "." ++ b.resourceName) ∉ seen) ∧
        (bs.map (fun b => b.resourceType ++ "." ++ b.resourceName)).Nodup := by
  intro outs
  induction outs with
  | nil =>
    intro seen bs h
    cases h
    exact ⟨fun b hb => absurd hb (List.not_mem_nil b), List.nodup_nil⟩
  | cons o rest ih =>
    intro seen bs h
    simp only [dataBlocksAux] at h
    by_cases h3 : (splitDots o.reference).length = 3
    · rw [if_pos h3] at h
      by_cases hseen : seen.contains
          ((splitDots o.reference).getD 0 "" ++ "." ++ (splitDots o.reference).getD 1 "") = true
      · rw [if_pos hseen] at h
        exact ih seen bs h
      · rw [if_neg hseen] at h
        obtain ⟨hto, hno, -⟩ := refComponents_dotfree h3
        rw [@findMatchingDataResource_pair ((splitDots o.reference).getD 0 "")
          ((splitDots o.reference).getD 1 "") hto hno sc] at h
        cases hds : findDS ((splitDots o.reference).getD 0 "") sc.providerSchemas with
        | some ds =>
          rw [hds] at h
          cases hrest : dataBlocksAux st sc
              (((splitDots o.reference).getD 0 "" ++ "." ++
                (splitDots o.reference).getD 1 "") :: seen) rest with
          | error e => rw [hrest] at h; cases h
          | ok bs' =>
            rw [hrest] at h
            cases h
            obtain ⟨hn1, hn2⟩ := ih _ bs' hrest
            constructor
            · intro b hb
              rcases List.mem_cons.mp hb with rfl | hb
              · simpa using hseen
              · exact fun hm => hn1 b hb (List.mem_cons_of_mem _ hm)
            · refine List.nodup_cons.mpr ⟨?_, hn2⟩
              intro hm
              obtain ⟨b, hb, hkey⟩ := List.mem_map.mp hm
              exact hn1 b hb (by rw [hkey]; exact List.mem_cons_self _ _)
        | none =>
          rw [hds] at h
          obtain ⟨hn1, hn2⟩ := ih _ bs h
          exact ⟨fun b hb hm => hn1 b hb (List.mem_cons_of_mem _ hm), hn2⟩
    · rw [if_neg h3] at h
      cases h

/-- A list whose `f`-image is duplicate-free and which contains an element
satisfying `p`, where `p` forces a fixed `f`-value, has `countP p = 1`. -/
theorem countP_eq_one_of_nodup_map {β : Type _} {bs : List β} {p : β → Bool}
    {f : β → String} {v : String} (hpv : ∀ b, p b = true → f b = v)
    (hnd : (bs.map f).Nodup) (hex : ∃ b ∈ bs, p b = true) :
    bs.countP p = 1 := by
  induction bs with
  | nil =>
    obtain ⟨b, hb, -⟩ := hex
    exact absurd hb (List.not_mem_nil b)
  | cons b bs ih =>
    rw [List.map_cons, List.nodup_cons] at hnd
    by_cases hpb : p b = true
    · have hrest : bs.countP p = 0 := by
        rw [List.countP_eq_zero]
        intro b' hb' hpb'
        exact hnd.1 (by rw [hpv b hpb, ← hpv b' hpb']; exact List.mem_map_of_mem f hb')
      simp [List.countP_cons, hrest, hpb]
    · have hex' : ∃ b' ∈ bs, p b' = true := by
        obtain ⟨b', hb', hp'⟩ := hex
        rcases List.mem_cons.mp hb' with rfl | hm
        · exact absurd hp' hpb
        · exact ⟨b', hm, hp'⟩
      rw [List.countP_cons, ih hnd.2 hex']
      simp [hpb]

/-! ### Provider-map lemmas (`insertProvider`) -/

theorem mem_insertProvider {name source : String} :
    ∀ {acc : List (String × String)} {p : String × String},
      p ∈ insertProvider name source acc → p = (name, source) ∨ p ∈ acc := by
  intro acc
  induction acc with
  | nil =>
    intro p hp
    simpa [insertProvider] using hp
  | cons q rest ih =>
    intro p hp
    simp only [insertProvider] at hp
    by_cases hq : (q.1 == name) = true
    · rw [if_pos hq] at hp
      rcases List.mem_cons.mp hp with rfl | hm
      · exact Or.inl rfl
      · exact Or.inr (List.mem_cons_of_mem _ hm)
    · rw [if_neg hq] at hp
      rcases List.mem_cons.mp hp with rfl | hm
      · exact Or.inr (List.mem_cons_self _ _)
      · rcases ih hm with h | h
        · exact Or.inl h
        · exact Or.inr (List.mem_cons_of_mem _ h)

theorem keysOf_insertProvider_self (name source : String) :
    ∀ acc : List (String × String), name ∈ keysOf (insertProvider name source acc) := by
  intro acc
  induction acc with
  | nil => simp [insertProvider, keysOf]
  | cons q rest ih =>
    simp only [insertProvider]
    by_cases hq : (q.1 == name) = true
    · rw [if_pos hq]
      simp [keysOf]
    · rw [if_neg hq]
      simpa [keysOf] using Or.inr ih

theorem keysOf_insertProvider_sub {name source k : String} {acc : List (String × String)}
    (h : k ∈ keysOf (insertProvider name source acc)) : k = name ∨ k ∈ keysOf acc := by
  obtain ⟨p, hp, hpk⟩ := List.mem_map.mp h
  rcases mem_insertProvider hp with rfl | hm
  · exact Or.inl hpk.symm
  · exact Or.inr (hpk ▸ List.mem_map_of_mem Prod.fst hm)

theorem keysOf_insertProvider_mono {name source k : String} {acc : List (String × String)}
    (h : k ∈ keysOf acc) : k ∈ keysOf (insertProvider name source acc) := by
  induction acc with
  | nil => simp [keysOf] at h
  | cons q rest ih =>
    simp only [insertProvider]
    by_cases hq : (q.1 == name) = true
    · rw [if_pos hq]
      rcases List.mem_cons.mp h with rfl | hm
      · have : q.1 = name := by simpa using hq
        simp [keysOf, this]
      · simpa [keysOf] using Or.inr hm
    · rw [if_neg hq]
      rcases List.mem_cons.mp h with rfl | hm
      · simp [keysOf]
      · simpa [keysOf] using Or.inr (ih hm)

theorem keysOf_insertProvider_nodup {name source : String} :
    ∀ {acc : List (String × String)}, (keysOf acc).Nodup →
      (keysOf (insertProvider name source acc)).Nodup := by
  intro acc
  induction acc with
  | nil =>
    intro _
    simp [insertProvider, keysOf]
  | cons q rest ih =>
    intro h
    simp only [keysOf, List.map_cons, List.nodup_cons] at h
    simp only [insertProvider]
    by_cases hq : (q.1 == name) = true
    · rw [if_pos hq]
      have : q.1 = name := by simpa using hq
      simp only [keysOf, List.map_cons, List.nodup_cons]
      exact ⟨this ▸ h.1, h.2⟩
    · rw [if_neg hq]
      simp only [keysOf, List.map_cons, List.nodup_cons]
      refine ⟨?_, ih h.2⟩
      intro hm
      rcases keysOf_insertProvider_sub hm with he | hm'
      · exact hq (by simp [he])
      · exact h.1 hm'

theorem join_cons (x : String) (l : List String) :
    String.join (x :: l) = x ++ String.join l := by
  apply String.ext
  simp [String.data_append]

theorem join_append (l₁ l₂ : List String) :
    String.join (l₁ ++ l₂) = String.join l₁ ++ String.join l₂ := by
  apply String.ext
  simp [String.data_append]

/-- Any attribute of a data block appears verbatim, rendered by
`renderAttrLine`, inside the rendered block. -/
theorem renderDataBlock_contains {b : DataBlock} {x : String × String}
    (hx : x ∈ b.attrs) :
    ∃ pre post, renderDataBlock b = pre ++ renderAttrLine x ++ post := by
  obtain ⟨l₁, l₂, hsplit⟩ := List.append_of_mem hx
  refine ⟨"data \"" ++ b.resourceType ++ "\" \"" ++ b.resourceName ++ "\" \x7b\n"
      ++ String.join (l₁.map renderAttrLine),
    String.join (l₂.map renderAttrLine) ++ "\x7d\n\n", ?_⟩
  rw [renderDataBlock, hsplit, List.map_append, List.map_cons, join_append, join_cons]
  apply String.ext
  simp [String.data_append]

/-- C4: when N ≥ 1 annotated declarations handed to the Generator resolve
to the same matched resource address `(t, n)`, exactly one data block is
emitted for that address; and when the resource type is unmatched, every
one of the N occurrences is individually evaluated and warned (warnings
are not deduplicated even though generated blocks are). -/
theorem c4_one_block_per_address_warnings_per_occurrence
    (outs : List AnnotatedOutput) (st : TerraformState) (sc : ProviderSchema)
    (t n : String)
    (hwf : ∀ o ∈ outs, (splitDots o.reference).length = 3)
    (hex : ∃ o ∈ outs, refType o = t ∧ refName o = n) :
    (∀ ds, findDS t sc.providerSchemas = some ds →
      ∃ bs, dataBlocks outs st sc = .ok bs ∧
        bs.countP (fun b => b.resourceType == t && b.resourceName == n) = 1) ∧
    (findDS t sc.providerSchemas = none →
      ∃ valid warned, partitionOutputs outs sc = .ok (valid, warned) ∧
        warned.countP (fun o => refType o == t && refName o == n) =
          outs.countP (fun o => refType o == t && refName o == n) ∧
        1 ≤ outs.countP (fun o => refType o == t && refName o == n)) := by
  have hdotfree : '.' ∉ t.data ∧ '.' ∉ n.data := by
    obtain ⟨o, ho, h1, h2⟩ := hex
    obtain ⟨hto, hno, -⟩ := refComponents_dotfree (hwf o ho)
    rw [h1] at hto
    rw [h2] at hno
    exact ⟨hto, hno⟩
  constructor
  · intro ds hds
    obtain ⟨bs, hbs, hmem⟩ := dataBlocksAux_mem_block st sc hdotfree.1 hdotfree.2 hds
      outs [] hwf hex (List.not_mem_nil _)
    obtain ⟨-, hnd⟩ := dataBlocksAux_keys_nodup st sc outs [] bs hbs
    refine ⟨bs, hbs, ?_⟩
    refine @countP_eq_one_of_nodup_map DataBlock bs
      (fun b => b.resourceType == t && b.resourceName == n)
      (fun b => b.resourceType ++ "." ++ b.resourceName) (t ++ "." ++ n) ?_ hnd ?_
    · intro b hb
      simp only [Bool.and_eq_true, beq_iff_eq] at hb
      show b.resourceType ++ "." ++ b.resourceName = t ++ "." ++ n
      rw [hb.1, hb.2]
    · exact ⟨_, hmem, by simp⟩
  · intro hds
    have hwf2 : ∀ o ∈ outs, 2 ≤ (splitDots o.reference).length := by
      intro o ho
      rw [hwf o ho]
      omega
    refine ⟨_, _, partitionOutputs_eq outs sc hwf2, ?_, ?_⟩
    · rw [List.countP_filter]
      apply List.countP_congr
      intro o ho
      by_cases hp : (refType o == t && refName o == n) = true
      · simp only [Bool.and_eq_true, beq_iff_eq] at hp
        simp [hp.1, hp.2, hds]
      · simp only [Bool.eq_false_iff.mpr hp]
        simp
    · obtain ⟨o, ho, h1, h2⟩ := hex
      have hpos : 0 < outs.countP (fun o => refType o == t && refName o == n) :=
        List.countP_pos_iff.mpr ⟨o, ho, by simp [h1, h2]⟩
      omega

/-- Witness for C4 at a concrete input: two declarations resolving to the
same matched address. -/
theorem c4_one_block_per_address_witness :
    (∀ o ∈ outsSampleDup, (splitDots o.reference).length = 3) ∧
    (∃ o ∈ outsSampleDup, refType o = "t" ∧ refName o = "n") ∧
    ((∀ ds, findDS "t" scSampleT.providerSchemas = some ds →
      ∃ bs, dataBlocks outsSampleDup ⟨[]⟩ scSampleT = .ok bs ∧
        bs.countP (fun b => b.resourceType == "t" && b.resourceName == "n") = 1) ∧
    (findDS "t" scSampleT.providerSchemas = none →
      ∃ valid warned, partitionOutputs outsSampleDup scSampleT = .ok (valid, warned) ∧
        warned.countP (fun o => refType o == "t" && refName o == "n") =
          outsSampleDup.countP (fun o => refType o == "t" && refName o == "n") ∧
        1 ≤ outsSampleDup.countP (fun o => refType o == "t" && refName o == "n"))) :=
  ⟨by decide, by decide,
    c4_one_block_per_address_warnings_per_occurrence _ _ _ "t" "n" (by decide) (by decide)⟩

/-- C7: when the state snapshot maps `aws_instance.foo`'s attribute `id`
to `i-123` and the matching data source requires `id`, the emitted data
block for that address contains the line `  id = "i-123"` verbatim. -/
theorem c7_state_value_rendered_verbatim (outs : List AnnotatedOutput)
    (st : TerraformState) (sc : ProviderSchema) (ds : ResourceSchema)
    (hwf : ∀ o ∈ outs, (splitDots o.reference).length = 3)
    (hex : ∃ o ∈ outs, refType o = "aws_instance" ∧ refName o = "foo")
    (hds : findDS "aws_instance" sc.providerSchemas = some ds)
    (hreq : "id" ∈ requiredAttrNames ds)
    (hval : extractAttributeValue "aws_instance.foo" "id" st = some "i-123") :
    ∃ bs b, dataBlocks outs st sc = .ok bs ∧ b ∈ bs ∧
      b.resourceType = "aws_instance" ∧ b.resourceName = "foo" ∧
      ("id", "i-123") ∈ b.attrs ∧
      ∃ pre post, renderDataBlock b = pre ++ "  id = \"i-123\"\n" ++ post := by
  have ht : '.' ∉ ("aws_instance" : String).data := by decide
  have hn : '.' ∉ ("foo" : String).data := by decide
  obtain ⟨bs, hbs, hmem⟩ := dataBlocksAux_mem_block st sc ht hn hds outs [] hwf hex
    (List.not_mem_nil _)
  have hmem2 : (("id" : String), ("i-123" : String)) ∈
      (requiredAttrNames ds).map
        (fun a => (a, (extractAttributeValue ("aws_instance" ++ "." ++ "foo") a st).getD "")) := by
    have h0 := List.mem_map_of_mem
      (fun a => (a, (extractAttributeValue ("aws_instance" ++ "." ++ "foo") a st).getD "")) hreq
    simp only [show ("aws_instance" ++ "." ++ "foo" : String) = "aws_instance.foo" from rfl,
      hval, Option.getD_some] at h0 ⊢
    exact h0
  refine ⟨bs, _, hbs, hmem, rfl, rfl, hmem2, ?_⟩
  have hrender : renderAttrLine ("id", "i-123") = "  id = \"i-123\"\n" := by decide
  rw [← hrender]
  exact renderDataBlock_contains hmem2

/-- Witness for C7: the spec section 8 example scenario. -/
theorem c7_state_value_rendered_verbatim_witness :
    (∀ o ∈ outsSampleAws, (splitDots o.reference).length = 3) ∧
    (∃ o ∈ outsSampleAws, refType o = "aws_instance" ∧ refName o = "foo") ∧
    findDS "aws_instance" scSampleAws.providerSchemas = some dsSampleId ∧
    "id" ∈ requiredAttrNames dsSampleId ∧
    extractAttributeValue "aws_instance.foo" "id" stSampleAws = some "i-123" ∧
    ∃ bs b, dataBlocks outsSampleAws stSampleAws scSampleAws = .ok bs ∧
      b ∈ bs ∧ b.resourceType = "aws_instance" ∧ b.resourceName = "foo" ∧
      ("id", "i-123") ∈ b.attrs ∧
      ∃ pre post, renderDataBlock b = pre ++ "  id = \"i-123\"\n" ++ post :=
  ⟨by decide, by decide, by decide, by decide, by decide,
    c7_state_value_rendered_verbatim outsSampleAws stSampleAws scSampleAws dsSampleId
      (by decide) (by decide) (by decide) (by decide) (by decide)⟩

/-- C8: a schema-required attribute that cannot be resolved from state
(missing attribute or missing address) does not fail generation: the
block renders it as `name = ""`. -/
theorem c8_absent_attribute_defaults_empty (outs : List AnnotatedOutput)
    (st : TerraformState) (sc : ProviderSchema) (ds : ResourceSchema)
    (t n attr : String)
    (hwf : ∀ o ∈ outs, (splitDots o.reference).length = 3)
    (hex : ∃ o ∈ outs, refType o = t ∧ refName o = n)
    (hds : findDS t sc.providerSchemas = some ds)
    (hreq : attr ∈ requiredAttrNames ds)
    (hval : extractAttributeValue (t ++ "." ++ n) attr st = none) :
    ∃ bs b, dataBlocks outs st sc = .ok bs ∧ b ∈ bs ∧
      b.resourceType = t ∧ b.resourceName = n ∧
      (attr, "") ∈ b.attrs ∧
      renderAttrLine (attr, "") = "  " ++ attr ++ " = \"\"\n" ∧
      ∃ pre post, renderDataBlock b = pre ++ ("  " ++ attr ++ " = \"\"\n") ++ post := by
  have hdotfree : '.' ∉ t.data ∧ '.' ∉ n.data := by
    obtain ⟨o, ho, h1, h2⟩ := hex
    obtain ⟨hto, hno, -⟩ := refComponents_dotfree (hwf o ho)
    rw [h1] at hto
    rw [h2] at hno
    exact ⟨hto, hno⟩
  obtain ⟨bs, hbs, hmem⟩ := dataBlocksAux_mem_block st sc hdotfree.1 hdotfree.2 hds
    outs [] hwf hex (List.not_mem_nil _)
  have hattr : (attr, "") ∈ (requiredAttrNames ds).map
      (fun a => (a, (extractAttributeValue (t ++ "." ++ n) a st).getD "")) := by
    have h0 := List.mem_map_of_mem
      (fun a => (a, (extractAttributeValue (t ++ "." ++ n) a st).getD "")) hreq
    simp only [hval, Option.getD_none] at h0
    exact h0
  have hrender : renderAttrLine (attr, "") = "  " ++ attr ++ " = \"\"\n" := by
    apply String.ext
    simp [renderAttrLine, String.data_append]
  refine ⟨bs, _, hbs, hmem, rfl, rfl, hattr, hrender, ?_⟩
  rw [← hrender]
  exact renderDataBlock_contains hattr

/-- Witness for C8: a required attribute absent from the state snapshot. -/
theorem c8_absent_attribute_defaults_empty_witness :
    (∀ o ∈ ([⟨"main.tf", 2, "x", "t.n.id", ""⟩] : List AnnotatedOutput),
        (splitDots o.reference).length = 3) ∧
    (∃ o ∈ ([⟨"main.tf", 2, "x", "t.n.id", ""⟩] : List AnnotatedOutput),
        refType o = "t" ∧ refName o = "n") ∧
    findDS "t" scSampleT.providerSchemas = some dsSampleId ∧
    "id" ∈ requiredAttrNames dsSampleId ∧
    extractAttributeValue ("t" ++ "." ++ "n") "id" ⟨[]⟩ = none ∧
    ∃ bs b, dataBlocks [⟨"main.tf", 2, "x", "t.n.id", ""⟩] ⟨[]⟩ scSampleT = .ok bs ∧
      b ∈ bs ∧ b.resourceType = "t" ∧ b.resourceName = "n" ∧
      ("id", "") ∈ b.attrs ∧
      renderAttrLine ("id", "") = "  " ++ "id" ++ " = \"\"\n" ∧
      ∃ pre post, renderDataBlock b = pre ++ ("  " ++ "id" ++ " = \"\"\n") ++ post :=
  ⟨by decide, by decide, by decide, by decide, by decide,
    c8_absent_attribute_defaults_empty [⟨"main.tf", 2, "x", "t.n.id", ""⟩] ⟨[]⟩ scSampleT
      dsSampleId "t" "n" "id" (by decide) (by decide) (by decide) (by decide) (by decide)⟩

/-- Witness for C9 at a concrete input: a two-component reference `t.n`
whose type has a matching data source (so it passes the filter), yet
generation aborts. -/
theorem c9_generation_fatal_witness :
    (∃ o ∈ ([⟨"main.tf", 3, "x", "t.n", ""⟩] : List AnnotatedOutput),
        (splitDots o.reference).length ≠ 3) ∧
    ((∃ e, dataBlocks [⟨"main.tf", 3, "x", "t.n", ""⟩] ⟨[]⟩
        ⟨[("registry.example/acme/t", ⟨[], [("t", ⟨⟨[]⟩⟩)]⟩)]⟩ = .error e) ∧
      (∃ e, providerEntries [⟨"main.tf", 3, "x", "t.n", ""⟩]
        ⟨[("registry.example/acme/t", ⟨[], [("t", ⟨⟨[]⟩⟩)]⟩)]⟩ = .error e)) :=
  ⟨by decide, c9_generation_fatal_on_non_three_part _ _ _ (by decide)⟩

/-! ### Provider-file characterization (C6) and reachability of the
segment-indexing panic (C10) -/

theorem providerFold_inv (outs : List AnnotatedOutput) (sc : ProviderSchema) (rt : String)
    (hrt : ∃ o ∈ outs, refType o = rt) :
    ∀ (ps : List (String × ProviderSchemaDetails)) (acc acc' : List (String × String)),
      (∀ q ∈ ps, q ∈ sc.providerSchemas) →
      providerFold rt ps acc = .ok acc' →
      (∀ p ∈ acc, seg2 p.2 = some p.1 ∧ ∃ d, (p.2, d) ∈ sc.providerSchemas ∧
          ∃ o ∈ outs, containsKey (refType o) d.resourceSchemas = true) →
      ((∀ p ∈ acc', seg2 p.2 = some p.1 ∧ ∃ d, (p.2, d) ∈ sc.providerSchemas ∧
          ∃ o ∈ outs, containsKey (refType o) d.resourceSchemas = true) ∧
        (∀ k, k ∈ keysOf acc → k ∈ keysOf acc') ∧
        ((keysOf acc).Nodup → (keysOf acc').Nodup) ∧
        (∀ q ∈ ps, containsKey rt q.2.resourceSchemas = true →
          ∃ name, seg2 q.1 = some name ∧ name ∈ keysOf acc')) := by
  intro ps
  induction ps with
  | nil =>
    intro acc acc' _ hfold hgood
    cases hfold
    exact ⟨hgood, fun _ hk => hk, fun h => h,
      fun q hq => absurd hq (List.not_mem_nil q)⟩
  | cons q ps ih =>
    intro acc acc' hps hfold hgood
    simp only [providerFold] at hfold
    by_cases hc : containsKey rt q.2.resourceSchemas = true
    · rw [if_pos hc] at hfold
      cases hseg : seg2 q.1 with
      | none =>
        rw [hseg] at hfold
        cases hfold
      | some name =>
        rw [hseg] at hfold
        have hgood' : ∀ p ∈ insertProvider name q.1 acc,
            seg2 p.2 = some p.1 ∧ ∃ d, (p.2, d) ∈ sc.providerSchemas ∧
              ∃ o ∈ outs, containsKey (refType o) d.resourceSchemas = true := by
          intro p hp
          rcases mem_insertProvider hp with rfl | hm
          · refine ⟨hseg, q.2, ?_, ?_⟩
            · have := hps q (List.mem_cons_self q ps)
              simpa using this
            · obtain ⟨o, ho, horef⟩ := hrt
              exact ⟨o, ho, by rw [horef]; exact hc⟩
          · exact hgood p hm
        obtain ⟨hg, hmono, hnd, hcov⟩ :=
          ih (insertProvider name q.1 acc) acc'
            (fun q' hq' => hps q' (List.mem_cons_of_mem _ hq')) hfold hgood'
        refine ⟨hg, ?_, ?_, ?_⟩
        · exact fun k hk => hmono k (keysOf_insertProvider_mono hk)
        · exact fun h => hnd (keysOf_insertProvider_nodup h)
        · intro q' hq' hc'
          rcases List.mem_cons.mp hq' with rfl | hm
          · exact ⟨name, hseg, hmono name (keysOf_insertProvider_self name q'.1 acc)⟩
          · exact hcov q' hm hc'
    · rw [if_neg hc] at hfold
      obtain ⟨hg, hmono, hnd, hcov⟩ :=
        ih acc acc' (fun q' hq' => hps q' (List.mem_cons_of_mem _ hq')) hfold hgood
      refine ⟨hg, hmono, hnd, ?_⟩
      intro q' hq' hc'
      rcases List.mem_cons.mp hq' with rfl | hm
      · exact absurd hc' hc
      · exact hcov q' hm hc'

theorem providerFold_keys_mono (rt : String) :
    ∀ (ps : List (String × ProviderSchemaDetails)) (acc acc' : List (String × String)),
      providerFold rt ps acc = .ok acc' → ∀ k, k ∈ keysOf acc → k ∈ keysOf acc' := by
  intro ps
  induction ps with
  | nil =>
    intro acc acc' h k hk
    cases h
    exact hk
  | cons q ps ih =>
    intro acc acc' h k hk
    simp only [providerFold] at h
    by_cases hc : containsKey rt q.2.resourceSchemas = true
    · rw [if_pos hc] at h
      cases hseg : seg2 q.1 with
      | none =>
        rw [hseg] at h
        cases h
      | some name =>
        rw [hseg] at h
        exact ih _ acc' h k (keysOf_insertProvider_mono hk)
    · rw [if_neg hc] at h
      exact ih acc acc' h k hk

theorem providerEntriesAux_keys_mono (sc : ProviderSchema) :
    ∀ (outs2 : List AnnotatedOutput) (acc es : List (String × String)),
      providerEntriesAux sc acc outs2 = .ok es →
      ∀ k, k ∈ keysOf acc → k ∈ keysOf es := by
  intro outs2
  induction outs2 with
  | nil =>
    intro acc es hrun k hk
    cases hrun
    exact hk
  | cons o rest ih =>
    intro acc es hrun k hk
    simp only [providerEntriesAux] at hrun
    by_cases h3 : (splitDots o.reference).length = 3
    · rw [if_pos h3] at hrun
      cases hfold : providerFold ((splitDots o.reference).getD 0 "") sc.providerSchemas acc with
      | error e =>
        rw [hfold] at hrun
        cases hrun
      | ok acc2 =>
        rw [hfold] at hrun
        exact ih acc2 es hrun k
          (providerFold_keys_mono ((splitDots o.reference).getD 0 "")
            sc.providerSchemas acc acc2 hfold k hk)
    · rw [if_neg h3] at hrun
      cases hrun

theorem providerEntriesAux_inv (sc : ProviderSchema) (outsAll : List AnnotatedOutput) :
    ∀ (outs2 : List AnnotatedOutput) (acc es : List (String × String)),
      (∀ o ∈ outs2, o ∈ outsAll) →
      providerEntriesAux sc acc outs2 = .ok es →
      (∀ p ∈ acc, seg2 p.2 = some p.1 ∧ ∃ d, (p.2, d) ∈ sc.providerSchemas ∧
          ∃ o ∈ outsAll, containsKey (refType o) d.resourceSchemas = true) →
      ((∀ p ∈ es, seg2 p.2 = some p.1 ∧ ∃ d, (p.2, d) ∈ sc.providerSchemas ∧
          ∃ o ∈ outsAll, containsKey (refType o) d.resourceSchemas = true) ∧
        ((keysOf acc).Nodup → (keysOf es).Nodup) ∧
        (∀ o ∈ outs2, ∀ q ∈ sc.providerSchemas,
          containsKey (refType o) q.2.resourceSchemas = true →
          ∃ name, seg2 q.1 = some name ∧ name ∈ keysOf es)) := by
  intro outs2
  induction outs2 with
  | nil =>
    intro acc es _ hrun hgood
    cases hrun
    exact ⟨hgood, fun h => h, fun o ho => absurd ho (List.not_mem_nil o)⟩
  | cons o rest ih =>
    intro acc es hsub hrun hgood
    simp only [providerEntriesAux] at hrun
    by_cases h3 : (splitDots o.reference).length = 3
    · rw [if_pos h3] at hrun
      cases hfold : providerFold ((splitDots o.reference).getD 0 "") sc.providerSchemas acc with
      | error e =>
        rw [hfold] at hrun
        cases hrun
      | ok acc2 =>
        rw [hfold] at hrun
        obtain ⟨hg1, hmono1, hnd1, hcov1⟩ :=
          providerFold_inv outsAll sc ((splitDots o.reference).getD 0 "")
            ⟨o, hsub o (List.mem_cons_self o rest), rfl⟩
            sc.providerSchemas acc acc2 (fun q hq => hq) hfold hgood
        obtain ⟨hg2, hnd2, hcov2⟩ :=
          ih acc2 es (fun o' ho' => hsub o' (List.mem_cons_of_mem _ ho')) hrun hg1
        refine ⟨hg2, fun h => hnd2 (hnd1 h), ?_⟩
        intro o' ho' q hq hc
        rcases List.mem_cons.mp ho' with rfl | hm
        · obtain ⟨name, hseg, hkey⟩ := hcov1 q hq hc
          refine ⟨name, hseg, ?_⟩
          exact providerEntriesAux_keys_mono sc rest acc2 es hrun name hkey
        · exact hcov2 o' hm q hq hc
    · rw [if_neg h3] at hrun
      cases hrun

/-- C6 (amended): the generated provider-requirements block contains
exactly the providers that own a resource schema (in `resourceSchemas`,
not `dataSourceSchemas`) for some declaration's resource type, each
rendered once with its full source identifier — but keyed by the
`/`-separated segment at index 2 of the source identifier, not by its
final path segment (the two agree only for three-segment sources). -/
theorem c6_providers_keyed_by_index_two_segment (outs : List AnnotatedOutput)
    (sc : ProviderSchema) (es : List (String × String))
    (hok : providerEntries outs sc = .ok es) :
    (∀ p ∈ es, seg2 p.2 = some p.1 ∧ ∃ d, (p.2, d) ∈ sc.providerSchemas ∧
        ∃ o ∈ outs, containsKey (refType o) d.resourceSchemas = true) ∧
    (∀ q ∈ sc.providerSchemas,
        (∃ o ∈ outs, containsKey (refType o) q.2.resourceSchemas = true) →
        ∃ name, seg2 q.1 = some name ∧ name ∈ keysOf es) ∧
    (keysOf es).Nodup := by
  obtain ⟨hg, hnd, hcov⟩ :=
    providerEntriesAux_inv sc outs outs [] es (fun o ho => ho) hok
      (fun p hp => absurd hp (List.not_mem_nil p))
  refine ⟨hg, ?_, hnd List.nodup_nil⟩
  intro q hq ⟨o, ho, hc⟩
  exact hcov o ho q hq hc

/-- C6 counterexample: a four-segment provider source `a/b/c/d` owning the
matched type `t`.  The emitted entry is keyed `c` (the segment at index
2), while the final path segment is `d`; no entry keyed `d` exists, so the
claim's "final path segment" dedup key is wrong for the code. -/
theorem c6_counterexample :
    providerEntries [⟨"a.tf", 1, "x", "t.n.id", ""⟩] scSampleLongSource =
      .ok [("c", "a/b/c/d")] ∧
    (splitSlash "a/b/c/d").getLast? = some "d" ∧
    ("c" : String) ≠ "d" ∧
    "d" ∉ keysOf [(("c" : String), ("a/b/c/d" : String))] := by
  refine ⟨by decide, by decide, by decide, by decide⟩

/-- Witness for C6's amended theorem at a concrete input. -/
theorem c6_providers_keyed_witness :
    providerEntries [⟨"a.tf", 1, "x", "t.n.id", ""⟩] scSampleLongSource =
      .ok [("c", "a/b/c/d")] ∧
    ((∀ p ∈ ([("c", "a/b/c/d")] : List (String × String)),
        seg2 p.2 = some p.1 ∧ ∃ d, (p.2, d) ∈ scSampleLongSource.providerSchemas ∧
          ∃ o ∈ ([⟨"a.tf", 1, "x", "t.n.id", ""⟩] : List AnnotatedOutput),
            containsKey (refType o) d.resourceSchemas = true) ∧
      (∀ q ∈ scSampleLongSource.providerSchemas,
        (∃ o ∈ ([⟨"a.tf", 1, "x", "t.n.id", ""⟩] : List AnnotatedOutput),
            containsKey (refType o) q.2.resourceSchemas = true) →
        ∃ name, seg2 q.1 = some name ∧
          name ∈ keysOf ([("c", "a/b/c/d")] : List (String × String))) ∧
      (keysOf ([("c", "a/b/c/d")] : List (String × String))).Nodup) :=
  ⟨by decide, c6_providers_keyed_by_index_two_segment _ _ _ (by decide)⟩

/-- C10: a provider source identifier with fewer than three `/`-separated
segments (here the spec's own example form `hashicorp/aws`) that owns a
resource schema for a matched type makes `createProviderFile`'s
`strings.Split(providerSource, "/")[2]` access out of range: the panic is
reachable, both at the provider-file step and in the full pipeline run. -/
theorem c10_short_source_panic_reachable :
    seg2 "hashicorp/aws" = none ∧
    providerEntries [⟨"m.tf", 1, "x", "aws_instance.foo.id", ""⟩] scSampleShortSource =
      .error .indexOutOfRange ∧
    runPipeline [⟨"m.tf", 1, "x", "aws_instance.foo.id", ""⟩] stSampleAws scSampleShortSource =
      .error .indexOutOfRange := by
  refine ⟨by decide, by decide, by decide⟩

/-! ### The three-artifact run (C1) -/

/-- A successful data-file generation forces every processed reference to
have exactly three dotted components. -/
theorem dataBlocksAux_ok_wf (st : TerraformState) (sc : ProviderSchema) :
    ∀ (outs : List AnnotatedOutput) (seen : List String) (bs : List DataBlock),
      dataBlocksAux st sc seen outs = .ok bs →
      ∀ o ∈ outs, (splitDots o.reference).length = 3 := by
  intro outs
  induction outs with
  | nil =>
    intro seen bs _ o ho
    exact absurd ho (List.not_mem_nil o)
  | cons o rest ih =>
    intro seen bs hrun o' ho'
    simp only [dataBlocksAux] at hrun
    by_cases h3 : (splitDots o.reference).length = 3
    · rw [if_pos h3] at hrun
      rcases List.mem_cons.mp ho' with rfl | hm
      · exact h3
      · by_cases hseen : seen.contains
            ((splitDots o.reference).getD 0 "" ++ "." ++ (splitDots o.reference).getD 1 "") = true
        · rw [if_pos hseen] at hrun
          exact ih seen bs hrun o' hm
        · rw [if_neg hseen] at hrun
          cases hmr : findMatchingDataResource
              ((splitDots o.reference).getD 0 "" ++ "." ++ (splitDots o.reference).getD 1 "") sc with
          | error e =>
            rw [hmr] at hrun
            cases hrun
          | ok pr =>
            rw [hmr] at hrun
            obtain ⟨found, req⟩ := pr
            cases found with
            | true =>
              cases hrec : dataBlocksAux st sc
                  (((splitDots o.reference).getD 0 "" ++ "." ++
                    (splitDots o.reference).getD 1 "") :: seen) rest with
              | error e =>
                rw [hrec] at hrun
                cases hrun
              | ok bs' =>
                rw [hrec] at hrun
                exact ih _ bs' hrec o' hm
            | false => exact ih _ bs hrun o' hm
    · rw [if_neg h3] at hrun
      cases hrun

/-- C1: a pipeline run that creates files (at least one declaration
matched) produces exactly the three artifacts, and the
`generated_outputs.tf` artifact is one output block per matched annotated
declaration, of the form
`output "<name>" { value = data.<type>.<name>.<attributePath> }`,
preserving the original output name and redirecting the reference to the
generated data block. -/
theorem c1_three_artifacts_output_blocks (outs : List AnnotatedOutput)
    (st : TerraformState) (sc : ProviderSchema) (arts : List (String × String))
    (h : runPipeline outs st sc = .ok (some arts)) :
    ∃ valid warned, partitionOutputs outs sc = .ok (valid, warned) ∧ valid ≠ [] ∧
      arts.map Prod.fst =
        ["generated_data.tf", "generated_providers.tf", "generated_outputs.tf"] ∧
      lookupKey "generated_outputs.tf" arts =
        some (String.join (valid.map renderOutputBlock)) ∧
      ∀ o ∈ valid, ∃ t n a, splitDots o.reference = [t, n, a] ∧
        renderOutputBlock o =
          "output \"" ++ o.output ++ "\" \x7b\n  value = data." ++ t ++ "." ++ n ++ "."
            ++ a ++ "\n\x7d\n\n" := by
  simp only [runPipeline] at h
  cases hp : partitionOutputs outs sc with
  | error e =>
    rw [hp] at h
    cases h
  | ok vw =>
    obtain ⟨valid, warned⟩ := vw
    rw [hp] at h
    dsimp only [] at h
    by_cases hemp : valid.isEmpty
    · rw [if_pos hemp] at h
      simp at h
    · rw [if_neg hemp] at h
      cases hd : genDataFileContent valid st sc with
      | error e =>
        rw [hd] at h
        cases h
      | ok d =>
        rw [hd] at h
        dsimp only [] at h
        cases hpv : genProvidersFileContent valid sc with
        | error e =>
          rw [hpv] at h
          cases h
        | ok p =>
          rw [hpv] at h
          dsimp only [] at h
          have harts : arts = [("generated_data.tf", d), ("generated_providers.tf", p),
              ("generated_outputs.tf", genOutputsFileContent valid)] := by
            have := h
            injection this with h1
            injection h1 with h2
            exact h2.symm
          subst harts
          refine ⟨valid, warned, rfl, by simpa [List.isEmpty_iff] using hemp, rfl, ?_, ?_⟩
          · simp [lookupKey, List.find?, genOutputsFileContent]
          · intro o ho
            have hwf : (splitDots o.reference).length = 3 := by
              simp only [genDataFileContent] at hd
              cases hdb : dataBlocks valid st sc with
              | error e =>
                rw [hdb] at hd
                cases hd
              | ok bs => exact dataBlocksAux_ok_wf st sc valid [] bs hdb o ho
            obtain ⟨t, n, a, hsplit⟩ :
                ∃ t n a, splitDots o.reference = [t, n, a] :=
              ⟨_, _, _, list_eq_of_length_three hwf⟩
            refine ⟨t, n, a, hsplit, ?_⟩
            rw [renderOutputBlock, splitDots_reconstruct hsplit]
            apply String.ext
            simp [String.data_append]

/-- Witness for C1: the spec section 8 example run, producing all three
artifacts with the expected `generated_outputs.tf` content. -/
theorem c1_three_artifacts_output_blocks_witness :
    runPipeline outsSampleAws stSampleAws scSampleAws = .ok (some
      [("generated_data.tf",
        "data \"aws_instance\" \"foo\" \x7b\n  id = \"i-123\"\n\x7d\n\n"),
       ("generated_providers.tf",
        "terraform \x7b\n  required_providers \x7b\n    aws = \x7b\n      source = \"registry.terraform.io/hashicorp/aws\"\n    \x7d\n  \x7d\n\x7d\n"),
       ("generated_outputs.tf",
        "output \"x\" \x7b\n  value = data.aws_instance.foo.id\n\x7d\n\n")]) ∧
    ∃ valid warned, partitionOutputs outsSampleAws scSampleAws = .ok (valid, warned) ∧
      valid ≠ [] ∧
      ([("generated_data.tf",
        "data \"aws_instance\" \"foo\" \x7b\n  id = \"i-123\"\n\x7d\n\n"),
       ("generated_providers.tf",
        "terraform \x7b\n  required_providers \x7b\n    aws = \x7b\n      source = \"registry.terraform.io/hashicorp/aws\"\n    \x7d\n  \x7d\n\x7d\n"),
       ("generated_outputs.tf",
        "output \"x\" \x7b\n  value = data.aws_instance.foo.id\n\x7d\n\n")] :
          List (String × String)).map Prod.fst =
        ["generated_data.tf", "generated_providers.tf", "generated_outputs.tf"] ∧
      lookupKey "generated_outputs.tf"
        [("generated_data.tf",
          "data \"aws_instance\" \"foo\" \x7b\n  id = \"i-123\"\n\x7d\n\n"),
         ("generated_providers.tf",
          "terraform \x7b\n  required_providers \x7b\n    aws = \x7b\n      source = \"registry.terraform.io/hashicorp/aws\"\n    \x7d\n  \x7d\n\x7d\n"),
         ("generated_outputs.tf",
          "output \"x\" \x7b\n  value = data.aws_instance.foo.id\n\x7d\n\n")] =
        some (String.join (valid.map renderOutputBlock)) ∧
      ∀ o ∈ valid, ∃ t n a, splitDots o.reference = [t, n, a] ∧
        renderOutputBlock o =
          "output \"" ++ o.output ++ "\" \x7b\n  value = data." ++ t ++ "." ++ n ++ "."
            ++ a ++ "\n\x7d\n\n" :=
  ⟨by decide, c1_three_artifacts_output_blocks outsSampleAws stSampleAws scSampleAws
    [("generated_data.tf",
      "data \"aws_instance\" \"foo\" \x7b\n  id = \"i-123\"\n\x7d\n\n"),
     ("generated_providers.tf",
      "terraform \x7b\n  required_providers \x7b\n    aws = \x7b\n      source = \"registry.terraform.io/hashicorp/aws\"\n    \x7d\n  \x7d\n\x7d\n"),
     ("generated_outputs.tf",
      "output \"x\" \x7b\n  value = data.aws_instance.foo.id\n\x7d\n\n")]
    (by decide)⟩

/-! ### Scanner claims (C5) -/

/-- C5 (amended): scanning a file with no marker comment line at all
yields the empty sequence; the claim's further assertion — that a
declaration whose immediately preceding comment run lacks the marker is
never emitted — does not hold, because the annotated state persists
across intervening non-comment lines (see the counterexample). -/
theorem c5_no_marker_no_extraction (lines : List String)
    (h : ∀ l ∈ lines, ¬(isCommentLine (trimChars l.data) = true ∧
        containsChars markerChars (trimChars l.data) = true)) :
    scanFile lines = [] := by
  show scanLinesAux lines .seeking = []
  induction lines with
  | nil => rfl
  | cons l rest ih =>
    have hrest := fun l' hl' => h l' (List.mem_cons_of_mem _ hl')
    simp only [scanLinesAux]
    by_cases hcl : isCommentLine (trimChars l.data) = true
    · have hmk : ¬(containsChars markerChars (trimChars l.data) = true) :=
        fun hm => h l (List.mem_cons_self l rest) ⟨hcl, hm⟩
      rw [if_pos hcl, if_neg hmk]
      exact ih hrest
    · rw [if_neg hcl]
      exact ih hrest

/-- C5 counterexample: a marker comment, an intervening non-comment line,
then a plain comment without the marker immediately preceding the
declaration.  The scanner still emits the declaration, because the
annotated state persists across the intervening non-comment line —
contradicting the claim that such a declaration is never extracted. -/
theorem c5_counterexample :
    scanFile ["# @public", "x = 1", "# nomark", "output \"y\" \x7b",
        "value = a.b.c", "\x7d"] = [("y", "a.b.c")] ∧
    isCommentLine (trimChars ("# nomark" : String).data) = true ∧
    containsChars markerChars (trimChars ("# nomark" : String).data) = false ∧
    isCommentLine (trimChars ("x = 1" : String).data) = false := by
  refine ⟨by decide, by decide, by decide, by decide⟩

/-- Witness for C5's amended theorem: a file with declarations but no
marker comment yields no extraction. -/
theorem c5_no_marker_no_extraction_witness :
    (∀ l ∈ (["output \"x\" \x7b", "  value = a.b", "\x7d"] : List String),
      ¬(isCommentLine (trimChars l.data) = true ∧
        containsChars markerChars (trimChars l.data) = true)) ∧
    scanFile ["output \"x\" \x7b", "  value = a.b", "\x7d"] = [] :=
  ⟨by decide, c5_no_marker_no_extraction _ (by decide)⟩

/-! ### Determinism of the sorted pipeline (C2)

The iteration order of every unordered mapping in the provider-schema
snapshot can differ between two runs on identical inputs.  Each lemma
below shows one stage of the sorted pipeline is invariant under
`SchemaEquiv`, the relation capturing exactly that reordering.
-/

theorem findDSSorted_rel {s₁ s₂ : ProviderSchema} (h : SchemaEquiv s₁ s₂) (rt : String) :
    optRel RSEquiv (findDSSorted rt s₁) (findDSSorted rt s₂) := by
  have hks : sortStrings (keysOf s₁.providerSchemas) = sortStrings (keysOf s₂.providerSchemas) :=
    sortStrings_eq_of_perm h.1
  have hpred : (fun k =>
      match lookupKey k s₁.providerSchemas with
      | some d => containsKey rt d.dataSourceSchemas
      | none => false) =
    (fun k =>
      match lookupKey k s₂.providerSchemas with
      | some d => containsKey rt d.dataSourceSchemas
      | none => false) := by
    funext k
    have hrel := MapEquiv.lookupRel h k
    cases h1 : lookupKey k s₁.providerSchemas with
    | none =>
      cases h2 : lookupKey k s₂.providerSchemas with
      | none => rfl
      | some d =>
        rw [h1, h2] at hrel
        exact False.elim hrel
    | some d1 =>
      cases h2 : lookupKey k s₂.providerSchemas with
      | none =>
        rw [h1, h2] at hrel
        exact False.elim hrel
      | some d2 =>
        rw [h1, h2] at hrel
        have hde : DetailsEquiv d1 d2 := hrel
        exact containsKey_eq_of_keysPerm hde.2.1
  simp only [findDSSorted]
  rw [hks, hpred]
  cases (sortStrings (keysOf s₂.providerSchemas)).find?
      (fun k =>
        match lookupKey k s₂.providerSchemas with
        | some d => containsKey rt d.dataSourceSchemas
        | none => false) with
  | none => trivial
  | some k =>
    dsimp only []
    have hrel := MapEquiv.lookupRel h k
    cases h1 : lookupKey k s₁.providerSchemas with
    | none =>
      cases h2 : lookupKey k s₂.providerSchemas with
      | none => trivial
      | some d =>
        rw [h1, h2] at hrel
        exact False.elim hrel
    | some d1 =>
      cases h2 : lookupKey k s₂.providerSchemas with
      | none =>
        rw [h1, h2] at hrel
        exact False.elim hrel
      | some d2 =>
        rw [h1, h2] at hrel
        have hde : DetailsEquiv d1 d2 := hrel
        exact MapEquiv.lookupRel hde.2 rt

theorem findMatchingDataResourceSorted_congr {s₁ s₂ : ProviderSchema}
    (h : SchemaEquiv s₁ s₂) (ref : String) :
    findMatchingDataResourceSorted ref s₁ = findMatchingDataResourceSorted ref s₂ := by
  simp only [findMatchingDataResourceSorted]
  by_cases hlen : (splitDots ref).length < 2
  · rw [if_pos hlen, if_pos hlen]
  · rw [if_neg hlen, if_neg hlen]
    have hrel := findDSSorted_rel h ((splitDots ref).getD 0 "")
    cases h1 : findDSSorted ((splitDots ref).getD 0 "") s₁ with
    | none =>
      cases h2 : findDSSorted ((splitDots ref).getD 0 "") s₂ with
      | none => rfl
      | some ds =>
        rw [h1, h2] at hrel
        exact False.elim hrel
    | some ds1 =>
      cases h2 : findDSSorted ((splitDots ref).getD 0 "") s₂ with
      | none =>
        rw [h1, h2] at hrel
        exact False.elim hrel
      | some ds2 =>
        rw [h1, h2] at hrel
        have hperm : ds1.block.attributes.Perm ds2.block.attributes := hrel
        have hreq : sortStrings (requiredAttrNames ds1) = sortStrings (requiredAttrNames ds2) :=
          sortStrings_eq_of_perm ((hperm.filter _).map _)
        dsimp only []
        rw [hreq]

theorem partitionOutputsSorted_congr {s₁ s₂ : ProviderSchema} (h : SchemaEquiv s₁ s₂) :
    ∀ outs : List AnnotatedOutput,
      partitionOutputsSorted outs s₁ = partitionOutputsSorted outs s₂ := by
  intro outs
  induction outs with
  | nil => rfl
  | cons o rest ih =>
    simp only [partitionOutputsSorted]
    rw [findMatchingDataResourceSorted_congr h o.reference, ih]

theorem dataBlocksSortedAux_congr {s₁ s₂ : ProviderSchema} (h : SchemaEquiv s₁ s₂)
    (st : TerraformState) :
    ∀ (outs : List AnnotatedOutput) (seen : List String),
      dataBlocksSortedAux st s₁ seen outs = dataBlocksSortedAux st s₂ seen outs := by
  intro outs
  induction outs with
  | nil => intro seen; rfl
  | cons o rest ih =>
    intro seen
    simp only [dataBlocksSortedAux]
    by_cases h3 : (splitDots o.reference).length = 3
    · rw [if_pos h3, if_pos h3]
      by_cases hseen : seen.contains
          ((splitDots o.reference).getD 0 "" ++ "." ++ (splitDots o.reference).getD 1 "") = true
      · rw [if_pos hseen, if_pos hseen]
        exact ih seen
      · rw [if_neg hseen, if_neg hseen]
        rw [findMatchingDataResourceSorted_congr h]
        cases findMatchingDataResourceSorted
            ((splitDots o.reference).getD 0 "" ++ "." ++ (splitDots o.reference).getD 1 "") s₂ with
        | error e => rfl
        | ok pr =>
          obtain ⟨found, req⟩ := pr
          cases found with
          | false => exact ih _
          | true =>
            rw [ih (((splitDots o.reference).getD 0 "" ++ "." ++
              (splitDots o.reference).getD 1 "") :: seen)]
    · rw [if_neg h3, if_neg h3]

theorem providerFoldSortedAux_congr {s₁ s₂ : ProviderSchema} (h : SchemaEquiv s₁ s₂)
    (rt : String) :
    ∀ (ks : List String) (acc : List (String × String)),
      providerFoldSortedAux rt s₁ ks acc = providerFoldSortedAux rt s₂ ks acc := by
  intro ks
  induction ks with
  | nil => intro acc; rfl
  | cons k ks ih =>
    intro acc
    simp only [providerFoldSortedAux]
    have hrel := MapEquiv.lookupRel h k
    cases h1 : lookupKey k s₁.providerSchemas with
    | none =>
      cases h2 : lookupKey k s₂.providerSchemas with
      | none => exact ih acc
      | some d =>
        rw [h1, h2] at hrel
        exact False.elim hrel
    | some d1 =>
      cases h2 : lookupKey k s₂.providerSchemas with
      | none =>
        rw [h1, h2] at hrel
        exact False.elim hrel
      | some d2 =>
        rw [h1, h2] at hrel
        have hde : DetailsEquiv d1 d2 := hrel
        have hck : containsKey rt d1.resourceSchemas = containsKey rt d2.resourceSchemas :=
          containsKey_eq_of_keysPerm hde.1.1
        dsimp only []
        rw [hck]
        by_cases hc : containsKey rt d2.resourceSchemas = true
        · rw [if_pos hc, if_pos hc]
          cases seg2 k with
          | none => rfl
          | some name => exact ih _
        · rw [if_neg hc, if_neg hc]
          exact ih acc

theorem providerEntriesSortedAux_congr {s₁ s₂ : ProviderSchema} (h : SchemaEquiv s₁ s₂) :
    ∀ (outs : List AnnotatedOutput) (acc : List (String × String)),
      providerEntriesSortedAux s₁ acc outs = providerEntriesSortedAux s₂ acc outs := by
  intro outs
  induction outs with
  | nil => intro acc; rfl
  | cons o rest ih =>
    intro acc
    simp only [providerEntriesSortedAux]
    by_cases h3 : (splitDots o.reference).length = 3
    · rw [if_pos h3, if_pos h3]
      have hks : sortStrings (keysOf s₁.providerSchemas) =
          sortStrings (keysOf s₂.providerSchemas) :=
        sortStrings_eq_of_perm h.1
      rw [hks, providerFoldSortedAux_congr h ((splitDots o.reference).getD 0 "")
        (sortStrings (keysOf s₂.providerSchemas)) acc]
      cases providerFoldSortedAux ((splitDots o.reference).getD 0 "") s₂
          (sortStrings (keysOf s₂.providerSchemas)) acc with
      | error e => rfl
      | ok acc2 => exact ih acc2
    · rw [if_neg h3, if_neg h3]

/-- C2: the deterministic pipeline — the source generator with the
spec-required lexical sorting of provider keys and required-attribute
lists — produces byte-identical artifact contents on two runs whose
provider-schema snapshots carry the same content in any iteration orders
(including snapshots where several providers define the same data-source
type). -/
theorem c2_sorted_pipeline_deterministic (outs : List AnnotatedOutput)
    (st : TerraformState) (s₁ s₂ : ProviderSchema) (h : SchemaEquiv s₁ s₂) :
    runPipelineSorted outs st s₁ = runPipelineSorted outs st s₂ := by
  simp only [runPipelineSorted]
  rw [partitionOutputsSorted_congr h outs]
  cases partitionOutputsSorted outs s₂ with
  | error e => rfl
  | ok vw =>
    obtain ⟨valid, warned⟩ := vw
    dsimp only []
    by_cases hemp : valid.isEmpty = true
    · rw [if_pos hemp, if_pos hemp]
    · rw [if_neg hemp, if_neg hemp]
      rw [dataBlocksSortedAux_congr h st valid [],
        providerEntriesSortedAux_congr h valid []]

/-- Witness for C2: two presentations of the same snapshot, with two
providers defining data-source type `t` and every mapping reordered,
produce identical artifacts. -/
theorem c2_sorted_pipeline_deterministic_witness :
    SchemaEquiv scPermFirst scPermSecond ∧
    runPipelineSorted [⟨"m.tf", 1, "x", "t.n.id", ""⟩] ⟨[]⟩ scPermFirst =
      runPipelineSorted [⟨"m.tf", 1, "x", "t.n.id", ""⟩] ⟨[]⟩ scPermSecond :=
  ⟨by decide, c2_sorted_pipeline_deterministic _ _ _ _ (by decide)⟩

end TDI
